import Mathlib

/-!
Verification development for the OSPFS on-image data engine
(`src/ospfsmod.c`): a shallow embedding of the block allocator, the
multi-level block index, the file-size engine (`add_block`,
`remove_block`, `change_size`), file read/write, `unlink`, `readdir`
and the symlink codec, together with theorems settling the frozen
claims about them.

Conventions of the embedding:
* The raw disk image is modelled as a record `FS` of typed views of the
  byte region: the free bitmap (a `List Bool`, one bit per block), the
  u32-slot view `store` used by indirect blocks, the raw byte view
  `bytes` of file data, and the directory-entry view `dirents`.  The
  views are projections of the same memory; no claim below mixes two
  views of one block, so they are kept as separate planes.
* C functions that mutate memory become state-passing functions; the
  inode a C function receives through an `ospfs_inode_t *` pointer is
  threaded explicitly as an `Inode` value (in and out).
* Machine integers are `Nat` with an explicit `% 2^32` wherever the C
  computation can wrap (size arithmetic, nlink decrement, `readdir`'s
  `uint32_t` cursor and entry offset).  The file position of
  `ospfs_read`/`ospfs_write` is a 64-bit signed `loff_t`: its overflow
  guard compares the two's-complement-wrapped 64-bit sum (`toInt64`),
  and passing it to a `uint32_t` parameter truncates it `% 2^32`.
* A write through a NULL pointer (reachable in `add_block`) is modelled
  by the distinguished outcome `Outcome.crash`.
-/

namespace OSPFS

/-- Modelled from the spec: 2^32, the modulus of the 32-bit quantities
(`uint32_t` sizes, block numbers, link counts) used throughout the source. -/
def U32 : Nat := 4294967296

/-- The modulus 2^64 of the 64-bit `loff_t` file-position type through
which the VFS hands `ospfs_read`/`ospfs_write` their `*f_pos`. -/
def U64 : Nat := 18446744073709551616

/-- The two's-complement (signed) reading of a 64-bit value: a `loff_t`
bit pattern at or above 2^63 denotes a negative number. -/
def toInt64 (x : Nat) : Int :=
  if x % U64 < U64 / 2 then ((x % U64 : Nat) : Int)
  else ((x % U64 : Nat) : Int) - (U64 : Int)

/-- Modelled from the spec: `OSPFS_BLKSIZE` from `ospfs.h` (not under the
sources); section 3 of the spec fixes the reference image block size 1024. -/
def OSPFS_BLKSIZE : Nat := 1024

/-- Modelled from the spec: `OSPFS_NDIRECT` (`ND`), the number of direct
block slots of an inode; the spec fixes `ND = 10`. -/
def OSPFS_NDIRECT : Nat := 10

/-- Modelled from the spec: `OSPFS_NINDIRECT` (`NI = BLKSIZE/4`), the number
of block pointers per indirect block; the spec fixes `NI = 256`. -/
def OSPFS_NINDIRECT : Nat := 256

/-- Modelled from the spec: `OSPFS_MAXFILEBLKS`, the largest number of data
blocks a file can have: `ND + NI + NI*NI`. -/
def OSPFS_MAXFILEBLKS : Nat := OSPFS_NDIRECT + OSPFS_NINDIRECT + OSPFS_NINDIRECT * OSPFS_NINDIRECT

/-- Modelled from the spec: `OSPFS_FREEMAP_BLK`, the first block of the free
bitmap; the spec's image layout puts the bitmap at block 2. -/
def OSPFS_FREEMAP_BLK : Nat := 2

/-- Modelled from the spec: `OSPFS_BLKINODES`, the per-block inode count
(64-byte inodes in 1024-byte blocks give 16).  Only its rough magnitude
matters below: it bounds `free_block`'s metadata guard. -/
def OSPFS_BLKINODES : Nat := 16

/-- Modelled from the spec: `OSPFS_DIRENTRY_SIZE`, the fixed size of a
directory entry record; `BLKSIZE` must be a multiple of it (128 bytes). -/
def OSPFS_DIRENTRY_SIZE : Nat := 128

/-- Modelled from the spec: `OSPFS_MAXNAMELEN`, the name-length limit of a
directory entry (117 in the reference image; the claims below only need
that it is at least the length of their concrete examples). -/
def OSPFS_MAXNAMELEN : Nat := 117

/-- Modelled from the spec: `OSPFS_MAXSYMLINKLEN`, the length limit of a
plain symlink target. -/
def OSPFS_MAXSYMLINKLEN : Nat := 117

/-- Modelled from the spec: `OSPFS_FTYPE_REG`, the `oi_ftype` tag of a
regular file. -/
def OSPFS_FTYPE_REG : Nat := 0

/-- Modelled from the spec: `OSPFS_FTYPE_DIR`, the `oi_ftype` tag of a
directory. -/
def OSPFS_FTYPE_DIR : Nat := 1

/-- Modelled from the spec: `OSPFS_FTYPE_SYMLINK`, the `oi_ftype` tag of a
symbolic link. -/
def OSPFS_FTYPE_SYMLINK : Nat := 2

/-- Linux `DT_DIR` constant passed to `filldir` for directories. -/
def DT_DIR : Nat := 4

/-- Linux `DT_REG` constant passed to `filldir` for regular files. -/
def DT_REG : Nat := 8

/-- Linux `DT_LNK` constant passed to `filldir` for symbolic links. -/
def DT_LNK : Nat := 10

/-- Error kinds returned by the engine (the `-E...` codes of the source). -/
inductive Err where
  | noSpace      -- -ENOSPC
  | ioError      -- -EIO
  | noEnt        -- -ENOENT
  | nameTooLong  -- -ENAMETOOLONG
  | fault        -- -EFAULT
deriving DecidableEq, Repr

/-- Result of a state-mutating engine call: success, an error code, or a
crash (a write through a NULL pointer, reachable in `add_block`). -/
inductive Outcome where
  | ok
  | err (e : Err)
  | crash
deriving DecidableEq, Repr

/-- One directory entry record (`ospfs_direntry_t`): inode number plus the
NUL-terminated name, abstracted to the byte list before the first NUL. -/
structure Direntry where
  ino : Nat
  name : List Nat
deriving DecidableEq, Repr, Inhabited

/-- One file/directory inode (`ospfs_inode_t`): size, type tag, link count,
mode, the `ND` direct slots, and the indirect and doubly-indirect block
numbers.  All fields are 32-bit on disk. -/
structure Inode where
  size : Nat
  ftype : Nat
  nlink : Nat
  mode : Nat
  direct : List Nat
  indirect : Nat
  indirect2 : Nat
deriving DecidableEq, Repr, Inhabited

/-- The filesystem image: superblock fields, the free bitmap (index `b`
is block `b`'s bit, `true` = free), and the typed views of block
contents (`store`: u32 slots of index blocks; `bytes`: raw file data;
`dirents`: directory-entry records, `BLKSIZE / DIRENTRY_SIZE` per block),
plus the inode-table view `inodes`. -/
structure FS where
  nblocks : Nat
  ninodes : Nat
  firstinob : Nat
  freemap : List Bool
  store : Nat → Nat → Nat
  bytes : Nat → Nat → Nat
  dirents : Nat → Nat → Direntry
  inodes : Nat → Inode

/-- Write a single u32 slot `s` of block `b` (an assignment through a
`uint32_t *` into that block). -/
def storeSet (fs : FS) (b s v : Nat) : FS :=
  { fs with store := fun b' s' => if b' = b ∧ s' = s then v else fs.store b' s' }

/-- Zero a whole block (`memset(ospfs_block(b), 0, OSPFS_BLKSIZE)`), on
every view of the block. -/
def zeroBlock (fs : FS) (b : Nat) : FS :=
  { fs with
    store := fun b' s => if b' = b then 0 else fs.store b' s,
    bytes := fun b' i => if b' = b then 0 else fs.bytes b' i,
    dirents := fun b' k => if b' = b then { ino := 0, name := [] } else fs.dirents b' k }

/-- Number of free bits in the bitmap; the termination measure of the
grow loop of `change_size`. -/
def countFree (fm : List Bool) : Nat := fm.count true

/-- The function `ospfs_size2nblocks`: number of blocks needed for `size`
bytes, `(size + OSPFS_BLKSIZE - 1) / OSPFS_BLKSIZE` in `uint32_t`
arithmetic (the addition wraps at 2^32). -/
def ospfs_size2nblocks (size : Nat) : Nat :=
  ((size + OSPFS_BLKSIZE - 1) % U32) / OSPFS_BLKSIZE

/-- The function `ospfs_inode` as a partial lookup: NULL (here `none`)
when `ino >= os_ninodes`, else the inode-table record. -/
def ospfs_inodeOpt (fs : FS) (ino : Nat) : Option Inode :=
  if fs.ninodes ≤ ino then none else some (fs.inodes ino)

/-- The scan of `allocate_block`'s `for` loop: first index `i` in
`[start, start + count)` whose bitmap bit is set (free). -/
def scanFree (fm : List Bool) : Nat → Nat → Option Nat
  | _, 0 => none
  | start, c + 1 =>
    if fm.getD start false then some start else scanFree fm (start + 1) c

/-- The function `allocate_block`: scan the bitmap from block
`OSPFS_FREEMAP_BLK` up to `os_nblocks`, clear the first free bit and
return its block number, or return 0 when none is free. -/
def allocate_block (fs : FS) : Nat × FS :=
  match scanFree fs.freemap OSPFS_FREEMAP_BLK (fs.nblocks - OSPFS_FREEMAP_BLK) with
  | some i => (i, { fs with freemap := fs.freemap.set i false })
  | none => (0, fs)

/-- The function `free_block`: set the block's bit, refusing (no-op) when
`blockno >= os_ninodes || blockno <= os_firstinob + OSPFS_BLKINODES`
(the source's sanity check, comparing against the inode count). -/
def free_block (fs : FS) (blockno : Nat) : FS :=
  if fs.ninodes ≤ blockno ∨ blockno ≤ fs.firstinob + OSPFS_BLKINODES then fs
  else { fs with freemap := fs.freemap.set blockno true }

/-- The ERR_HANDLE idiom `if (allocated[i] != 0) free_block(allocated[i])`. -/
def freeIfNonzero (fs : FS) (b : Nat) : FS :=
  if b ≠ 0 then free_block fs b else fs

/-- The function `indir2_index`: 0 if file block `b` needs the doubly
indirect block, -1 if not. -/
def indir2_index (b : Nat) : Int :=
  if b < OSPFS_NDIRECT + OSPFS_NINDIRECT then -1 else 0

/-- The function `indir_index`: -1 for a direct block, 0 under the first
indirect block, else the offset of the indirect block inside the doubly
indirect block. -/
def indir_index (b : Nat) : Int :=
  if b < OSPFS_NDIRECT then -1
  else if indir2_index b = -1 then 0
  else ((b - (OSPFS_NDIRECT + OSPFS_NINDIRECT)) / OSPFS_NINDIRECT : Nat)

/-- The function `direct_index`: index of file block `b` inside the direct
array or inside its indirect block. -/
def direct_index (b : Nat) : Int :=
  if b < OSPFS_NDIRECT then (b : Int)
  else ((b - OSPFS_NDIRECT) % OSPFS_NINDIRECT : Nat)

/-- The function `ospfs_inode_blockno`: block number holding byte
`offset` of the inode's data; 0 (sentinel) past the size or for a
symlink.  Block contents are read through the u32-slot view `st`. -/
def ospfs_inode_blockno (oi : Inode) (st : Nat → Nat → Nat) (offset : Nat) : Nat :=
  let blockno := offset / OSPFS_BLKSIZE
  if oi.size ≤ offset ∨ oi.ftype = OSPFS_FTYPE_SYMLINK then 0
  else if OSPFS_NDIRECT + OSPFS_NINDIRECT ≤ blockno then
    let blockoff := blockno - (OSPFS_NDIRECT + OSPFS_NINDIRECT)
    st (st oi.indirect2 (blockoff / OSPFS_NINDIRECT)) (blockoff % OSPFS_NINDIRECT)
  else if OSPFS_NDIRECT ≤ blockno then
    st oi.indirect (blockno - OSPFS_NDIRECT)
  else oi.direct.getD blockno 0

/-- Continuation of `add_block` for the doubly-indirect region
(`index_indir2 == 0`), after `double_indir_block` has been determined:
`dblock` is the doubly-indirect block in use and `alloc0` is
`allocated[INDIR_2_CONST]` (the newly allocated doubly-indirect block, or
0 when an existing one is used).  When the needed indirect block already
exists, the source leaves `indir_data == NULL` and the assignment
`indir_data[index_direct] = allocate_block()` writes through a NULL
pointer: that leg evaluates `allocate_block()` and then crashes. -/
def add_block_indir2 (oi : Inode) (fs : FS) (n : Nat) (ii idx : Int)
    (dblock alloc0 : Nat) : Outcome × Inode × FS :=
  if fs.store dblock ii.toNat = 0 then
    let p1 := allocate_block fs
    if p1.1 = 0 then
      (.err .noSpace, oi, freeIfNonzero p1.2 alloc0)
    else
      let ib := p1.1
      let fsB := zeroBlock p1.2 ib
      let p2 := allocate_block fsB
      let fsC := storeSet p2.2 ib idx.toNat p2.1
      if p2.1 = 0 then
        (.err .noSpace, oi, freeIfNonzero (freeIfNonzero fsC alloc0) ib)
      else
        let fsD := zeroBlock fsC p2.1
        let oi1 := { oi with size := ((n + 1) * OSPFS_BLKSIZE) % U32 }
        let oi2 := if oi1.indirect2 = 0 then { oi1 with indirect2 := dblock } else oi1
        let fsE := if fsD.store dblock ii.toNat = 0 then storeSet fsD dblock ii.toNat ib else fsD
        (.ok, oi2, fsE)
  else
    let p2 := allocate_block fs
    (.crash, oi, p2.2)

/-- The function `add_block`: append one data block to the file,
allocating the indirect / doubly-indirect blocks it needs; on failure
free the blocks tracked in `allocated[]` (the source does not track the
fresh singly-indirect block it stores straight into `oi->oi_indirect`). -/
def add_block (oi : Inode) (fs : FS) : Outcome × Inode × FS :=
  let n := ospfs_size2nblocks oi.size
  if n = OSPFS_MAXFILEBLKS then (.err .noSpace, oi, fs)
  else
    let ii2 := indir2_index n
    let ii := indir_index n
    let idx := direct_index n
    if ii = -1 then
      -- data block goes into the direct array
      if oi.direct.getD idx.toNat 0 ≠ 0 then (.err .ioError, oi, fs)
      else
        let p := allocate_block fs
        if p.1 = 0 then (.err .noSpace, oi, free_block p.2 0)
        else
          let fs2 := zeroBlock p.2 p.1
          (.ok,
           { oi with direct := oi.direct.set idx.toNat p.1,
                     size := ((n + 1) * OSPFS_BLKSIZE) % U32 },
           fs2)
    else if ii2 = 0 then
      -- doubly-indirect region
      if oi.indirect2 = 0 then
        let p0 := allocate_block fs
        if p0.1 = 0 then (.err .noSpace, oi, p0.2)
        else add_block_indir2 oi (zeroBlock p0.2 p0.1) n ii idx p0.1 p0.1
      else add_block_indir2 oi fs n ii idx oi.indirect2 0
    else
      -- singly-indirect region
      if oi.indirect = 0 then
        let p1 := allocate_block fs
        if p1.1 = 0 then (.err .noSpace, oi, p1.2)
        else
          let oiA := { oi with indirect := p1.1 }
          let fsB := zeroBlock p1.2 p1.1
          let p2 := allocate_block fsB
          let fsC := storeSet p2.2 p1.1 idx.toNat p2.1
          if p2.1 = 0 then (.err .noSpace, oiA, fsC)
          else (.ok, { oiA with size := ((n + 1) * OSPFS_BLKSIZE) % U32 }, zeroBlock fsC p2.1)
      else
        let p2 := allocate_block fs
        let fsC := storeSet p2.2 oi.indirect idx.toNat p2.1
        if p2.1 = 0 then (.err .noSpace, oi, fsC)
        else (.ok, { oi with size := ((n + 1) * OSPFS_BLKSIZE) % U32 }, zeroBlock fsC p2.1)

/-- Shared tail of `remove_block` after the indirect block `ib` holding
the last data block has been located (`dblock? = some d` when it came
through `indirect2`, mirroring `index_indir2 == 0`): free the last data
block, zero its slot, shrink `size`, and free the now-empty indirect
(and doubly-indirect) blocks. -/
def remove_block_tail (oi : Inode) (fs : FS) (n : Nat) (ii idx : Int)
    (ib : Nat) (dblock? : Option Nat) : Outcome × Inode × FS :=
  let dataBlock := fs.store ib idx.toNat
  let fs1 := storeSet (free_block fs dataBlock) ib idx.toNat 0
  let oi1 := { oi with size := (n * OSPFS_BLKSIZE) % U32 }
  if idx = 0 then
    let fs2 := free_block fs1 ib
    match dblock? with
    | none => (.ok, { oi1 with indirect := 0 }, fs2)
    | some dblock =>
      let fs3 := storeSet fs2 dblock ii.toNat 0
      if ii = 0 then
        (.ok, { oi1 with indirect2 := 0 }, free_block fs3 dblock)
      else (.ok, oi1, fs3)
  else (.ok, oi1, fs1)

/-- The function `remove_block`: drop the last data block, freeing the
indirect / doubly-indirect blocks that become unnecessary.  The source's
`if (indir_data == NULL) return -EIO` check can never fire, because
`ospfs_block` never returns NULL (it is `&ospfs_data[blockno * BLKSIZE]`);
when `oi_indirect` (or the slot of `indirect2`) is 0 the code therefore
proceeds, treating block 0 as the indirect block. -/
def remove_block (oi : Inode) (fs : FS) : Outcome × Inode × FS :=
  let n0 := ospfs_size2nblocks oi.size
  if n0 = 0 then (.ok, oi, fs)
  else
    let n := n0 - 1
    let ii2 := indir2_index n
    let ii := indir_index n
    let idx := direct_index n
    if ii = -1 then
      if oi.direct.getD idx.toNat 0 = 0 then (.err .ioError, oi, fs)
      else
        (.ok,
         { oi with direct := oi.direct.set idx.toNat 0,
                   size := (n * OSPFS_BLKSIZE) % U32 },
         free_block fs (oi.direct.getD idx.toNat 0))
    else if ii2 = 0 then
      if oi.indirect2 = 0 then (.err .ioError, oi, fs)
      else
        let dblock := oi.indirect2
        let ib := fs.store dblock ii.toNat
        remove_block_tail oi fs n ii idx ib (some dblock)
    else
      remove_block_tail oi fs n ii idx oi.indirect none

/-! Facts about the allocator needed to define the `change_size` loops by
well-founded recursion: every successful `add_block` clears at least one
bitmap bit, every successful `remove_block` (on a nonempty file) drops the
block count by one. -/

theorem count_true_set_false : ∀ (l : List Bool) (i : Nat), l.getD i false = true →
    (l.set i false).count true < l.count true := by
  intro l
  induction l with
  | nil => intro i h; simp [List.getD] at h
  | cons a t ih =>
    intro i h
    cases i with
    | zero =>
      simp only [List.getD_cons_zero] at h
      subst h
      simp [List.count_cons]
    | succ j =>
      have hj := ih j (by simpa using h)
      simp only [List.set_cons_succ, List.count_cons]
      omega

theorem scanFree_some : ∀ (c start i : Nat) (fm : List Bool),
    scanFree fm start c = some i → fm.getD i false = true ∧ start ≤ i := by
  intro c
  induction c with
  | zero => intro start i fm h; simp [scanFree] at h
  | succ c ih =>
    intro start i fm h
    rw [scanFree] at h
    split at h
    · next hb =>
      obtain rfl := Option.some.inj h
      exact ⟨hb, Nat.le_refl _⟩
    · next hb =>
      obtain ⟨h1, h2⟩ := ih (start + 1) i fm h
      exact ⟨h1, by omega⟩

theorem allocate_block_spec (fs : FS) :
    ((allocate_block fs).1 = 0 ∧ (allocate_block fs).2 = fs) ∨
    (2 ≤ (allocate_block fs).1 ∧
      fs.freemap.getD (allocate_block fs).1 false = true ∧
      (allocate_block fs).2 = { fs with freemap := fs.freemap.set (allocate_block fs).1 false }) := by
  unfold allocate_block
  cases h : scanFree fs.freemap OSPFS_FREEMAP_BLK (fs.nblocks - OSPFS_FREEMAP_BLK) with
  | none => exact Or.inl ⟨rfl, rfl⟩
  | some i =>
    obtain ⟨h1, h2⟩ := scanFree_some _ _ _ _ h
    exact Or.inr ⟨h2, h1, rfl⟩

theorem allocate_block_countFree_le (fs : FS) :
    countFree (allocate_block fs).2.freemap ≤ countFree fs.freemap := by
  rcases allocate_block_spec fs with ⟨_, h⟩ | ⟨_, hbit, h⟩
  · rw [h]
  · rw [h]
    exact Nat.le_of_lt (count_true_set_false _ _ hbit)

theorem allocate_block_countFree_lt (fs : FS) (h : (allocate_block fs).1 ≠ 0) :
    countFree (allocate_block fs).2.freemap < countFree fs.freemap := by
  rcases allocate_block_spec fs with ⟨h0, _⟩ | ⟨_, hbit, heq⟩
  · exact absurd h0 h
  · rw [heq]
    exact count_true_set_false _ _ hbit

theorem storeSet_freemap (fs : FS) (b s v : Nat) :
    (storeSet fs b s v).freemap = fs.freemap := rfl

theorem zeroBlock_freemap (fs : FS) (b : Nat) :
    (zeroBlock fs b).freemap = fs.freemap := rfl

theorem add_block_indir2_ok_countFree (oi : Inode) (fs : FS) (n : Nat) (ii idx : Int)
    (dblock alloc0 : Nat) (oi' : Inode) (fs' : FS)
    (h : add_block_indir2 oi fs n ii idx dblock alloc0 = (.ok, oi', fs')) :
    countFree fs'.freemap < countFree fs.freemap := by
  simp only [add_block_indir2] at h
  split at h
  · split at h
    · simp at h
    · next h1 =>
      split at h
      · simp at h
      · next h2 =>
        simp only [Prod.mk.injEq] at h
        have hfm : fs'.freemap =
            (allocate_block (zeroBlock (allocate_block fs).2 (allocate_block fs).1)).2.freemap := by
          rw [← h.2.2]
          split <;> rfl
        rw [hfm]
        calc countFree (allocate_block (zeroBlock (allocate_block fs).2 (allocate_block fs).1)).2.freemap
            < countFree (zeroBlock (allocate_block fs).2 (allocate_block fs).1).freemap :=
              allocate_block_countFree_lt _ h2
          _ = countFree (allocate_block fs).2.freemap := rfl
          _ ≤ countFree fs.freemap := allocate_block_countFree_le fs
  · simp at h

theorem add_block_ok_countFree (oi : Inode) (fs : FS) (oi' : Inode) (fs' : FS)
    (h : add_block oi fs = (.ok, oi', fs')) :
    countFree fs'.freemap < countFree fs.freemap := by
  simp only [add_block] at h
  split at h
  · simp at h
  · split at h
    · -- direct branch
      split at h
      · simp at h
      · split at h
        · simp at h
        · next ha =>
          simp only [Prod.mk.injEq] at h
          rw [← h.2.2]
          exact allocate_block_countFree_lt fs ha
    · split at h
      · -- doubly-indirect branch
        split at h
        · split at h
          · simp at h
          · calc countFree fs'.freemap
                < countFree (zeroBlock (allocate_block fs).2 (allocate_block fs).1).freemap :=
                  add_block_indir2_ok_countFree _ _ _ _ _ _ _ _ _ h
              _ = countFree (allocate_block fs).2.freemap := rfl
              _ ≤ countFree fs.freemap := allocate_block_countFree_le fs
        · exact add_block_indir2_ok_countFree _ _ _ _ _ _ _ _ _ h
      · -- singly-indirect branch
        split at h
        · split at h
          · simp at h
          · split at h
            · simp at h
            · next hb =>
              simp only [Prod.mk.injEq] at h
              rw [← h.2.2]
              calc countFree (allocate_block (zeroBlock (allocate_block fs).2 (allocate_block fs).1)).2.freemap
                  < countFree (zeroBlock (allocate_block fs).2 (allocate_block fs).1).freemap :=
                    allocate_block_countFree_lt _ hb
                _ = countFree (allocate_block fs).2.freemap := rfl
                _ ≤ countFree fs.freemap := allocate_block_countFree_le fs
        · split at h
          · simp at h
          · next hb =>
            simp only [Prod.mk.injEq] at h
            rw [← h.2.2]
            exact allocate_block_countFree_lt fs hb

theorem ospfs_size2nblocks_le (s : Nat) : ospfs_size2nblocks s ≤ 4194303 := by
  unfold ospfs_size2nblocks
  have h1 : (s + OSPFS_BLKSIZE - 1) % U32 ≤ U32 - 1 :=
    Nat.le_pred_of_lt (Nat.mod_lt _ (by norm_num [U32]))
  calc (s + OSPFS_BLKSIZE - 1) % U32 / OSPFS_BLKSIZE
      ≤ (U32 - 1) / OSPFS_BLKSIZE := Nat.div_le_div_right h1
    _ = 4194303 := by norm_num [U32, OSPFS_BLKSIZE]

theorem ospfs_size2nblocks_mul (n : Nat) (h : n ≤ 4194303) :
    ospfs_size2nblocks ((n * OSPFS_BLKSIZE) % U32) = n := by
  have hB : 0 < OSPFS_BLKSIZE := by norm_num [OSPFS_BLKSIZE]
  have hmul : n * OSPFS_BLKSIZE ≤ 4194303 * OSPFS_BLKSIZE := Nat.mul_le_mul_right _ h
  have hlt : n * OSPFS_BLKSIZE < U32 := by
    calc n * OSPFS_BLKSIZE ≤ 4194303 * OSPFS_BLKSIZE := hmul
      _ < U32 := by norm_num [U32, OSPFS_BLKSIZE]
  have hlt2 : n * OSPFS_BLKSIZE + OSPFS_BLKSIZE - 1 < U32 := by
    have h1 : 4194303 * OSPFS_BLKSIZE + OSPFS_BLKSIZE - 1 < U32 := by
      norm_num [U32, OSPFS_BLKSIZE]
    omega
  unfold ospfs_size2nblocks
  rw [Nat.mod_eq_of_lt hlt, Nat.mod_eq_of_lt hlt2]
  have hsplit : n * OSPFS_BLKSIZE + OSPFS_BLKSIZE - 1
      = (OSPFS_BLKSIZE - 1) + OSPFS_BLKSIZE * n := by
    simp only [OSPFS_BLKSIZE]
    omega
  rw [hsplit, Nat.add_mul_div_left _ _ hB]
  norm_num [OSPFS_BLKSIZE]

theorem remove_block_tail_shape (oi : Inode) (fs : FS) (n : Nat) (ii idx : Int)
    (ib : Nat) (dblock? : Option Nat) :
    (remove_block_tail oi fs n ii idx ib dblock?).1 = .ok ∧
    (remove_block_tail oi fs n ii idx ib dblock?).2.1.size = (n * OSPFS_BLKSIZE) % U32 := by
  unfold remove_block_tail
  split
  · rcases dblock? with - | d
    · exact ⟨rfl, rfl⟩
    · dsimp only
      split
      · exact ⟨rfl, rfl⟩
      · exact ⟨rfl, rfl⟩
  · exact ⟨rfl, rfl⟩

theorem remove_block_ok_nblocks (oi : Inode) (fs : FS) (oi' : Inode) (fs' : FS)
    (hn : ospfs_size2nblocks oi.size ≠ 0)
    (h : remove_block oi fs = (.ok, oi', fs')) :
    ospfs_size2nblocks oi'.size = ospfs_size2nblocks oi.size - 1 := by
  have hle := ospfs_size2nblocks_le oi.size
  have tailCase : ∀ (ii idx : Int) (ib : Nat) (d? : Option Nat),
      remove_block_tail oi fs (ospfs_size2nblocks oi.size - 1) ii idx ib d? = (.ok, oi', fs') →
      ospfs_size2nblocks oi'.size = ospfs_size2nblocks oi.size - 1 := by
    intro ii idx ib d? htail
    obtain ⟨-, h2⟩ := remove_block_tail_shape oi fs (ospfs_size2nblocks oi.size - 1) ii idx ib d?
    have hsz := congrArg (fun p : Outcome × Inode × FS => p.2.1.size) htail
    simp only at hsz
    rw [h2] at hsz
    rw [← hsz]
    exact ospfs_size2nblocks_mul _ (by omega)
  simp only [remove_block] at h
  split at h
  · next h0 => exact absurd h0 hn
  · split at h
    · -- direct leg
      split at h
      · simp at h
      · simp only [Prod.mk.injEq] at h
        rw [← h.2.1]
        exact ospfs_size2nblocks_mul _ (by omega)
    · split at h
      · split at h
        · simp at h
        · exact tailCase _ _ _ _ h
      · exact tailCase _ _ _ _ h

/-- Exit state of the internal `while` loops of `change_size`: normal
exit, break on `-ENOSPC`, early `return -EIO`, or a crash propagated
from `add_block`. -/
inductive LoopFlag where
  | done
  | nospace
  | ioFail
  | crashed
deriving DecidableEq, Repr

/-- The grow loop of `change_size`: `while (nblocks(oi_size) <
nblocks(new_size))` call `add_block`; break on `-ENOSPC`, return on
`-EIO`.  Terminates because every successful `add_block` clears a bitmap
bit. -/
def growLoop (oi : Inode) (fs : FS) (target : Nat) : LoopFlag × Inode × FS :=
  if ospfs_size2nblocks oi.size < ospfs_size2nblocks target then
    match h : add_block oi fs with
    | (.ok, oi', fs') => growLoop oi' fs' target
    | (.err e, oi', fs') =>
      if e = .noSpace then (.nospace, oi', fs') else (.ioFail, oi', fs')
    | (.crash, oi', fs') => (.crashed, oi', fs')
  else (.done, oi, fs)
termination_by countFree fs.freemap
decreasing_by exact add_block_ok_countFree _ _ _ _ h

/-- The shrink loop of `change_size`: `while (nblocks(oi_size) >
nblocks(new_size))` call `remove_block`, returning on `-EIO` (the only
error `remove_block` produces; its crash arm is unreachable). -/
def shrinkLoop (oi : Inode) (fs : FS) (target : Nat) : LoopFlag × Inode × FS :=
  if ospfs_size2nblocks target < ospfs_size2nblocks oi.size then
    match h : remove_block oi fs with
    | (.ok, oi', fs') => shrinkLoop oi' fs' target
    | (.err _, oi', fs') => (.ioFail, oi', fs')
    | (.crash, oi', fs') => (.crashed, oi', fs')
  else (.done, oi, fs)
termination_by ospfs_size2nblocks oi.size
decreasing_by
  rw [remove_block_ok_nblocks oi fs oi' fs' (by omega) h]
  omega

/-- The function `change_size`: grow by `add_block` (shrinking back to
the original size when one of them reports `-ENOSPC`), shrink by
`remove_block`, then set `oi_size` to the requested size exactly and
return `r` (0, or the `-ENOSPC` kept from the broken grow loop). -/
def change_size (oi : Inode) (fs : FS) (new_size : Nat) : Outcome × Inode × FS :=
  let old_size := oi.size
  match growLoop oi fs new_size with
  | (.ioFail, oi1, fs1) => (.err .ioError, oi1, fs1)
  | (.crashed, oi1, fs1) => (.crash, oi1, fs1)
  | (.nospace, oi1, fs1) =>
    -- the source sets new_size = old_size and falls into the shrink loop,
    -- finally storing old_size and returning the saved r = -ENOSPC
    match shrinkLoop oi1 fs1 old_size with
    | (.ioFail, oi2, fs2) => (.err .ioError, oi2, fs2)
    | (.crashed, oi2, fs2) => (.crash, oi2, fs2)
    | (_, oi2, fs2) => (.err .noSpace, { oi2 with size := old_size }, fs2)
  | (.done, oi1, fs1) =>
    match shrinkLoop oi1 fs1 new_size with
    | (.ioFail, oi2, fs2) => (.err .ioError, oi2, fs2)
    | (.crashed, oi2, fs2) => (.crash, oi2, fs2)
    | (_, oi2, fs2) => (.ok, { oi2 with size := new_size }, fs2)

/-! One-step unfolding lemmas for the loops, used to evaluate
`change_size` at the concrete states of the claims. -/

theorem growLoop_stop (oi : Inode) (fs : FS) (target : Nat)
    (h : ¬ ospfs_size2nblocks oi.size < ospfs_size2nblocks target) :
    growLoop oi fs target = (.done, oi, fs) := by
  rw [growLoop, if_neg h]

theorem growLoop_step_ok (oi : Inode) (fs : FS) (target : Nat)
    (hc : ospfs_size2nblocks oi.size < ospfs_size2nblocks target)
    (he : (add_block oi fs).1 = Outcome.ok) :
    growLoop oi fs target = growLoop (add_block oi fs).2.1 (add_block oi fs).2.2 target := by
  rw [growLoop, if_pos hc]
  rcases hab : add_block oi fs with ⟨o, oi', fs'⟩
  rw [hab] at he
  simp only at he
  subst he
  rfl

theorem growLoop_step_err (oi : Inode) (fs : FS) (target : Nat) (e : Err)
    (hc : ospfs_size2nblocks oi.size < ospfs_size2nblocks target)
    (he : (add_block oi fs).1 = Outcome.err e) :
    growLoop oi fs target =
      ((if e = Err.noSpace then LoopFlag.nospace else LoopFlag.ioFail), (add_block oi fs).2) := by
  rw [growLoop, if_pos hc]
  rcases hab : add_block oi fs with ⟨o, oi', fs'⟩
  rw [hab] at he
  simp only at he
  subst he
  by_cases h2 : e = Err.noSpace <;> simp [h2]

theorem growLoop_step_crash (oi : Inode) (fs : FS) (target : Nat)
    (hc : ospfs_size2nblocks oi.size < ospfs_size2nblocks target)
    (he : (add_block oi fs).1 = Outcome.crash) :
    growLoop oi fs target = (.crashed, (add_block oi fs).2) := by
  rw [growLoop, if_pos hc]
  rcases hab : add_block oi fs with ⟨o, oi', fs'⟩
  rw [hab] at he
  simp only at he
  subst he
  rfl

theorem shrinkLoop_stop (oi : Inode) (fs : FS) (target : Nat)
    (h : ¬ ospfs_size2nblocks target < ospfs_size2nblocks oi.size) :
    shrinkLoop oi fs target = (.done, oi, fs) := by
  rw [shrinkLoop, if_neg h]

theorem shrinkLoop_step_ok (oi : Inode) (fs : FS) (target : Nat)
    (hc : ospfs_size2nblocks target < ospfs_size2nblocks oi.size)
    (he : (remove_block oi fs).1 = Outcome.ok) :
    shrinkLoop oi fs target = shrinkLoop (remove_block oi fs).2.1 (remove_block oi fs).2.2 target := by
  rw [shrinkLoop, if_pos hc]
  rcases hab : remove_block oi fs with ⟨o, oi', fs'⟩
  rw [hab] at he
  simp only at he
  subst he
  rfl

/-! File read and write (`ospfs_read`, `ospfs_write`).  The user-space
transfers (`copy_to_user` / `copy_from_user`) are modelled as always
succeeding; their `-EFAULT` path is a host-adapter transfer failure that
no claim touches. -/

/-- Result of a read or write call: byte count and final file position
on success, an error code, or a crash propagated from `change_size`. -/
inductive RwRes where
  | bytes (n fpos : Nat)
  | fail (e : Err)
  | crash
deriving DecidableEq, Repr

/-- The copy loop of `ospfs_read`: per iteration look up the block of
`*f_pos` (the `loff_t` is truncated by `ospfs_inode_blockno`'s
`uint32_t offset` parameter), fail with `-EIO` on the sentinel 0, else
copy `min(BLKSIZE - f_pos % BLKSIZE, count - amount)` bytes and
advance. -/
def readLoop (oi : Inode) (st : Nat → Nat → Nat) (count : Nat) (amount fpos : Nat) :
    RwRes :=
  if amount < count then
    if ospfs_inode_blockno oi st (fpos % U32) = 0 then .fail .ioError
    else
      let data_offset := fpos % OSPFS_BLKSIZE
      let n := min (OSPFS_BLKSIZE - data_offset) (count - amount)
      readLoop oi st count (amount + n) (fpos + n)
  else .bytes amount fpos
termination_by count - amount
decreasing_by simp only [OSPFS_BLKSIZE]; omega

/-- The function `ospfs_read`: the guard `if (*f_pos + count < *f_pos)
return -EIO` is 64-bit `loff_t` arithmetic — the 32-bit `size_t`
`count` is promoted, the sum wraps two's-complement at 2^64 and the
comparison is signed, so the guard fires exactly when the sum leaves
the `loff_t` range.  Past it, `count` is clamped to the bytes available
and the copy loop runs.  `fpos` is the (nonnegative) value of
`*f_pos`. -/
def ospfs_read (oi : Inode) (st : Nat → Nat → Nat) (count fpos : Nat) : RwRes :=
  if toInt64 (fpos + count) < toInt64 fpos then .fail .ioError
  else
    let count' := if oi.size ≤ fpos then 0
      else if oi.size < fpos + count then oi.size - fpos else count
    readLoop oi st count' 0 fpos

/-- Write `n` user bytes (from `buf` starting at `bufpos`) at byte
offset `off` of block `b`. -/
def writeBytes (fs : FS) (b off : Nat) (buf : Nat → Nat) (bufpos n : Nat) : FS :=
  { fs with bytes := fun b' i =>
      if b' = b ∧ off ≤ i ∧ i < off + n then buf (bufpos + (i - off)) else fs.bytes b' i }

/-- The copy loop of `ospfs_write`, mirroring `readLoop` with the copy
direction reversed (including the `loff_t` truncation at the
`ospfs_inode_blockno` call). -/
def writeLoop (oi : Inode) (fs : FS) (buf : Nat → Nat) (count : Nat) (amount fpos : Nat) :
    RwRes × FS :=
  if amount < count then
    let blockno := ospfs_inode_blockno oi fs.store (fpos % U32)
    if blockno = 0 then (.fail .ioError, fs)
    else
      let data_offset := fpos % OSPFS_BLKSIZE
      let n := min (OSPFS_BLKSIZE - data_offset) (count - amount)
      writeLoop oi (writeBytes fs blockno data_offset buf amount n) buf count (amount + n) (fpos + n)
  else (.bytes amount fpos, fs)
termination_by count - amount
decreasing_by simp only [OSPFS_BLKSIZE]; omega

/-- The function `ospfs_write`: on `O_APPEND` reset `*f_pos` to the file
size; compute `newsize = *f_pos + count` (a 32-bit `size_t`, so it
wraps); the source's overflow check `if (*f_pos + count < *f_pos)
return -EIO` is commented out.  When `newsize >= oi_size`, call
`change_size` and return its error verbatim on failure; then copy. -/
def ospfs_write (oi : Inode) (fs : FS) (buf : Nat → Nat) (count fpos0 : Nat)
    (append : Bool) : RwRes × Inode × FS :=
  let fpos := if append then oi.size else fpos0
  let newsize := (fpos + count) % U32
  if oi.size ≤ newsize then
    match change_size oi fs newsize with
    | (.ok, oi', fs') =>
      let r := writeLoop oi' fs' buf count 0 fpos
      (r.1, oi', r.2)
    | (.err e, oi', fs') => (.fail e, oi', fs')
    | (.crash, oi', fs') => (.crash, oi', fs')
  else
    let r := writeLoop oi fs buf count 0 fpos
    (r.1, oi, r.2)

/-! Directory machinery: reading entries through the block index, the
`unlink` operation, and the `readdir` iterator. -/

/-- Read the directory entry at byte offset `off` of directory `oi`
(`ospfs_inode_data(oi, off)` interpreted as an `ospfs_direntry_t`). -/
def getDirent (oi : Inode) (fs : FS) (off : Nat) : Direntry :=
  fs.dirents (ospfs_inode_blockno oi fs.store off) ((off % OSPFS_BLKSIZE) / OSPFS_DIRENTRY_SIZE)

/-- Clear the `od_ino` field of the directory entry at byte offset `off`
of directory `oi` (the `od->od_ino = 0` of `ospfs_unlink`). -/
def clearDirentIno (oi : Inode) (fs : FS) (off : Nat) : FS :=
  let b := ospfs_inode_blockno oi fs.store off
  let k := (off % OSPFS_BLKSIZE) / OSPFS_DIRENTRY_SIZE
  { fs with dirents := fun b' k' =>
      if b' = b ∧ k' = k then { fs.dirents b' k' with ino := 0 } else fs.dirents b' k' }

/-- The 32-bit decrement (`x--` on a `uint32_t`). -/
def dec32 (x : Nat) : Nat := (x + U32 - 1) % U32

/-- The entry-scan loop of `ospfs_unlink` (and of `find_direntry`):
first byte offset, stepping by `DIRENTRY_SIZE` while `< oi_size`, whose
entry has `od_ino > 0` and a stored name equal to `name`.  The source
compares `strlen(od_name) == namelen && memcmp(od_name, name, namelen)
== 0`, which for NUL-free names is equality of the byte lists. -/
def unlinkScan (dirOi : Inode) (fs : FS) (name : List Nat) (off : Nat) : Option Nat :=
  if h : off < dirOi.size then
    let od := getDirent dirOi fs off
    if 0 < od.ino ∧ od.name = name then some off
    else unlinkScan dirOi fs name (off + OSPFS_DIRENTRY_SIZE)
  else none
termination_by dirOi.size - off
decreasing_by simp only [OSPFS_DIRENTRY_SIZE]; omega

/-- The function `ospfs_unlink`: find the entry named `name` in the
parent directory (else `-ENOENT`; the source's `entry_off ==
dir_oi->oi_size` miss test is the scan running off the end, which for a
directory size that is a multiple of `DIRENTRY_SIZE` — invariant I6 —
is exactly the not-found case); clear its `od_ino`, decrement the
target's `oi_nlink` and the parent directory's `oi_nlink`, and truncate
the target to size 0 when its link count reached 0 and it is not a
symlink (the result of that `change_size` call is ignored).  `dirOi` is
the parent's inode (`dir_oi`), `targetOi` the unlinked file's inode
(`oi`, from the dentry). -/
def ospfs_unlink (dirOi targetOi : Inode) (fs : FS) (name : List Nat) :
    Except Err (Inode × Inode × FS) :=
  match unlinkScan dirOi fs name 0 with
  | none => .error .noEnt
  | some off =>
    let fs1 := clearDirentIno dirOi fs off
    let t1 := { targetOi with nlink := dec32 targetOi.nlink }
    let d1 := { dirOi with nlink := dec32 dirOi.nlink }
    if t1.nlink = 0 ∧ t1.ftype ≠ OSPFS_FTYPE_SYMLINK then
      let r := change_size t1 fs1 0
      .ok (d1, r.2.1, r.2.2)
    else .ok (d1, t1, fs1)

/-- One entry handed to the `filldir` callback: name, the `f_pos` value,
inode number, and the `DT_*` file-type code. -/
structure Emitted where
  name : List Nat
  pos : Nat
  ino : Nat
  dtype : Nat
deriving DecidableEq, Repr

/-- The `switch (entry_oi->oi_ftype)` of `ospfs_dir_readdir`: the
`DT_*` code, or `none` for the default (`-EIO`) case. -/
def dtType (ftype : Nat) : Option Nat :=
  if ftype = OSPFS_FTYPE_REG then some DT_REG
  else if ftype = OSPFS_FTYPE_DIR then some DT_DIR
  else if ftype = OSPFS_FTYPE_SYMLINK then some DT_LNK
  else none

/-- Termination measure of the entry loop: the 32-bit cursor climbs
towards 2^32 and the loop leaves as soon as it wraps below 2. -/
def readdirMeasure (fpos : Nat) : Nat :=
  if fpos % U32 < 2 then 0 else U32 - fpos % U32

/-- The entry loop of `ospfs_dir_readdir` (`while (r == 0 && ok_so_far
>= 0 && f_pos >= 2)`), called with the loop invariant `r = 0`,
`ok_so_far >= 0`: returns `(r, final f_pos, consumer state)`.  `f_pos`
is a `uint32_t`, so its value is `fpos % U32` and the entry offset
`(f_pos - 2) * OSPFS_DIRENTRY_SIZE` wraps mod 2^32; when `f_pos++`
wraps the cursor below 2 the `while` condition fails and the loop
leaves with `r = 0`.  At the end of the directory it returns 1; a blank
or out-of-table entry just advances `f_pos`; an unrecognized `oi_ftype`
sets `r = -EIO` (without advancing) and leaves the loop; after
`filldir` the source increments `f_pos` whether or not the callback
asked to stop. -/
def readdirLoop {σ : Type} (fs : FS) (dirOi : Inode)
    (filldir : σ → Emitted → σ × Bool) (fpos : Nat) (s : σ) : Int × Nat × σ :=
  if h2 : fpos % U32 < 2 then (0, fpos % U32, s)
  else if h : dirOi.size ≤ ((fpos % U32 - 2) * OSPFS_DIRENTRY_SIZE) % U32 then
    (1, fpos % U32, s)
  else
    let od := getDirent dirOi fs (((fpos % U32 - 2) * OSPFS_DIRENTRY_SIZE) % U32)
    match ospfs_inodeOpt fs od.ino with
    | none => readdirLoop fs dirOi filldir (fpos % U32 + 1) s
    | some entryOi =>
      if od.ino = 0 then readdirLoop fs dirOi filldir (fpos % U32 + 1) s
      else
        match dtType entryOi.ftype with
        | none => (-5, fpos % U32, s)
        | some ft =>
          let r := filldir s { name := od.name, pos := fpos % U32, ino := od.ino, dtype := ft }
          if r.2 then readdirLoop fs dirOi filldir (fpos % U32 + 1) r.1
          else (0, (fpos % U32 + 1) % U32, r.1)
termination_by readdirMeasure fpos
decreasing_by all_goals (simp only [readdirMeasure, U32] at h2 ⊢; split_ifs <;> omega)

/-- The function `ospfs_dir_readdir`: the `loff_t` file position is
truncated into the `uint32_t` local (`uint32_t f_pos = filp->f_pos`);
`f_pos = 0` emits `"."` with this directory's inode number, `f_pos = 1`
emits `".."` with the parent's, then the entry loop runs (`dirIno` is
the directory's own inode number, `parentIno` the parent's; the
directory inode record is read from the inode table). -/
def ospfs_dir_readdir {σ : Type} (fs : FS) (dirIno parentIno : Nat) (fpos0 : Nat)
    (filldir : σ → Emitted → σ × Bool) (s0 : σ) : Int × Nat × σ :=
  let dirOi := fs.inodes dirIno
  let st0 : Nat × σ × Bool :=
    if fpos0 % U32 = 0 then
      let r := filldir s0 { name := [46], pos := 0, ino := dirIno, dtype := DT_DIR }
      (if r.2 then 1 else 0, r.1, r.2)
    else (fpos0 % U32, s0, true)
  let st1 : Nat × σ × Bool :=
    if st0.2.2 ∧ st0.1 = 1 then
      let r := filldir st0.2.1 { name := [46, 46], pos := 1, ino := parentIno, dtype := DT_DIR }
      (if r.2 then 2 else 1, r.1, r.2)
    else st0
  if st1.2.2 ∧ 2 ≤ st1.1 then readdirLoop fs dirOi filldir st1.1 st1.2.1
  else (0, st1.1, st1.2.1)

/-! Symlink codec (`ospfs_symlink`'s target encoding) and resolver
(`ospfs_follow_link`).  Strings are byte lists without NUL; `cstr`
reads a stored C string (the bytes before the first NUL). -/

/-- Bytes of a stored buffer up to (excluding) the first NUL. -/
def cstr (l : List Nat) : List Nat := l.takeWhile (fun b => b ≠ 0)

/-- The plain-symlink leg of `ospfs_symlink`: refuse names longer than
`OSPFS_MAXSYMLINKLEN`, else store `target` NUL-terminated with
`oi_size = strlen(target)`. -/
def ospfs_symlink_plain (symname : List Nat) : Except Err (Nat × List Nat) :=
  if OSPFS_MAXSYMLINKLEN < symname.length then .error .nameTooLong
  else .ok (symname.length, symname ++ [0])

/-- The target-encoding portion of `ospfs_symlink` (the directory-entry
bookkeeping around it is independent of the claims about the codec):
`strpbrk` finds the first `'?'` and the first `':'`; when both exist
with the `'?'` first, the conditional encoding stores
`"?" <root> '\0' ":" <other> '\0'` with `oi_size = strlen(qmark) + 1`,
refusing when `root_path_len + other_path_len > OSPFS_MAXNAMELEN`;
otherwise the plain encoding is used.  Returns `(oi_size, stored bytes)`. -/
def ospfs_symlink_encode (symname : List Nat) : Except Err (Nat × List Nat) :=
  match symname.findIdx? (fun b => b = 63), symname.findIdx? (fun b => b = 58) with
  | some qi, some ci =>
    if qi < ci then
      let root_path_len := ci - qi + 1
      let other_path_len := symname.length - ci
      if OSPFS_MAXNAMELEN < root_path_len + other_path_len then .error .nameTooLong
      else
        .ok (symname.length - qi + 1,
          ((symname.drop qi).take (root_path_len - 1)) ++ [0] ++ symname.drop ci ++ [0])
    else ospfs_symlink_plain symname
  | _, _ => ospfs_symlink_plain symname

/-- The function `ospfs_follow_link` on a symlink inode with stored
bytes `sym` and `oi_size = sz`, for calling user `uid`: a stored target
starting with `'?'` resolves to the bytes after the `'?'` for root
(`uid = 0`); for anyone else the code scans to the first NUL at offset
`off` and, provided `off[1] == ':'` and `off < oi_size`, resolves to
the bytes after the `':'`; malformed layouts give `-EIO`.  A target not
starting with `'?'` resolves to the stored C string itself. -/
def ospfs_follow_link (sz : Nat) (sym : List Nat) (uid : Nat) : Except Err (List Nat) :=
  if sym.getD 0 0 = 63 then
    if uid = 0 then .ok (cstr (sym.drop 1))
    else
      let off := (cstr sym).length
      if sym.getD (off + 1) 0 ≠ 58 ∨ sz ≤ off then .error .ioError
      else .ok (cstr (sym.drop (off + 2)))
  else .ok (cstr sym)

theorem shrinkLoop_step_err (oi : Inode) (fs : FS) (target : Nat) (e : Err)
    (hc : ospfs_size2nblocks target < ospfs_size2nblocks oi.size)
    (he : (remove_block oi fs).1 = Outcome.err e) :
    shrinkLoop oi fs target = (.ioFail, (remove_block oi fs).2) := by
  rw [shrinkLoop, if_pos hc]
  rcases hab : remove_block oi fs with ⟨o, oi', fs'⟩
  rw [hab] at he
  simp only at he
  subst he
  rfl

theorem shrinkLoop_step_crash (oi : Inode) (fs : FS) (target : Nat)
    (hc : ospfs_size2nblocks target < ospfs_size2nblocks oi.size)
    (he : (remove_block oi fs).1 = Outcome.crash) :
    shrinkLoop oi fs target = (.crashed, (remove_block oi fs).2) := by
  rw [shrinkLoop, if_pos hc]
  rcases hab : remove_block oi fs with ⟨o, oi', fs'⟩
  rw [hab] at he
  simp only at he
  subst he
  rfl

/-! Frame lemmas: neither `add_block` nor `remove_block` nor the
`change_size` loops touch an inode's link count, and the shrink path
never touches the directory-entry view. -/

theorem add_block_indir2_nlink (oi : Inode) (fs : FS) (n : Nat) (ii idx : Int)
    (dblock alloc0 : Nat) :
    (add_block_indir2 oi fs n ii idx dblock alloc0).2.1.nlink = oi.nlink := by
  simp only [add_block_indir2]
  repeat' split
  all_goals rfl

theorem add_block_nlink (oi : Inode) (fs : FS) :
    (add_block oi fs).2.1.nlink = oi.nlink := by
  simp only [add_block]
  repeat' split
  all_goals first
    | rfl
    | exact add_block_indir2_nlink _ _ _ _ _ _ _

theorem remove_block_tail_nlink (oi : Inode) (fs : FS) (n : Nat) (ii idx : Int)
    (ib : Nat) (dblock? : Option Nat) :
    (remove_block_tail oi fs n ii idx ib dblock?).2.1.nlink = oi.nlink := by
  simp only [remove_block_tail]
  rcases dblock? with - | d
  · repeat' split
    all_goals rfl
  · repeat' split
    all_goals rfl

theorem remove_block_nlink (oi : Inode) (fs : FS) :
    (remove_block oi fs).2.1.nlink = oi.nlink := by
  simp only [remove_block]
  repeat' split
  all_goals first
    | rfl
    | exact remove_block_tail_nlink _ _ _ _ _ _ _

theorem free_block_dirents (fs : FS) (b : Nat) :
    (free_block fs b).dirents = fs.dirents := by
  unfold free_block
  split <;> rfl

theorem storeSet_dirents (fs : FS) (b s v : Nat) :
    (storeSet fs b s v).dirents = fs.dirents := rfl

theorem remove_block_tail_dirents (oi : Inode) (fs : FS) (n : Nat) (ii idx : Int)
    (ib : Nat) (dblock? : Option Nat) :
    (remove_block_tail oi fs n ii idx ib dblock?).2.2.dirents = fs.dirents := by
  simp only [remove_block_tail]
  rcases dblock? with - | d
  · repeat' split
    all_goals simp [free_block_dirents, storeSet_dirents]
  · repeat' split
    all_goals simp [free_block_dirents, storeSet_dirents]

theorem remove_block_dirents (oi : Inode) (fs : FS) :
    (remove_block oi fs).2.2.dirents = fs.dirents := by
  simp only [remove_block]
  repeat' split
  all_goals first
    | rfl
    | simp [free_block_dirents, storeSet_dirents]
    | exact remove_block_tail_dirents _ _ _ _ _ _ _

theorem growLoop_nlink (oi : Inode) (fs : FS) (t : Nat) :
    (growLoop oi fs t).2.1.nlink = oi.nlink := by
  induction oi, fs, t using growLoop.induct with
  | case1 oi fs t hc oi' fs' hab ih =>
    rw [growLoop_step_ok oi fs t hc (by rw [hab])]
    have h2 := add_block_nlink oi fs
    rw [hab] at h2 ⊢
    rw [ih]
    exact h2
  | case2 oi fs t hc oi' fs' hab =>
    rw [growLoop_step_err oi fs t Err.noSpace hc (by rw [hab])]
    have h2 := add_block_nlink oi fs
    rw [hab] at h2 ⊢
    simpa using h2
  | case3 oi fs t hc e oi' fs' hab hne =>
    rw [growLoop_step_err oi fs t e hc (by rw [hab])]
    have h2 := add_block_nlink oi fs
    rw [hab] at h2 ⊢
    simpa using h2
  | case4 oi fs t hc oi' fs' hab =>
    rw [growLoop_step_crash oi fs t hc (by rw [hab])]
    have h2 := add_block_nlink oi fs
    rw [hab] at h2 ⊢
    simpa using h2
  | case5 oi fs t hc =>
    rw [growLoop_stop oi fs t hc]

theorem shrinkLoop_nlink (oi : Inode) (fs : FS) (t : Nat) :
    (shrinkLoop oi fs t).2.1.nlink = oi.nlink := by
  induction oi, fs, t using shrinkLoop.induct with
  | case1 oi fs t hc oi' fs' hab ih =>
    rw [shrinkLoop_step_ok oi fs t hc (by rw [hab])]
    have h2 := remove_block_nlink oi fs
    rw [hab] at h2 ⊢
    rw [ih]
    exact h2
  | case2 oi fs t hc e oi' fs' hab =>
    rw [shrinkLoop_step_err oi fs t e hc (by rw [hab])]
    have h2 := remove_block_nlink oi fs
    rw [hab] at h2 ⊢
    simpa using h2
  | case3 oi fs t hc oi' fs' hab =>
    rw [shrinkLoop_step_crash oi fs t hc (by rw [hab])]
    have h2 := remove_block_nlink oi fs
    rw [hab] at h2 ⊢
    simpa using h2
  | case4 oi fs t hc =>
    rw [shrinkLoop_stop oi fs t hc]

theorem shrinkLoop_dirents (oi : Inode) (fs : FS) (t : Nat) :
    (shrinkLoop oi fs t).2.2.dirents = fs.dirents := by
  induction oi, fs, t using shrinkLoop.induct with
  | case1 oi fs t hc oi' fs' hab ih =>
    rw [shrinkLoop_step_ok oi fs t hc (by rw [hab])]
    have h2 := remove_block_dirents oi fs
    rw [hab] at h2 ⊢
    rw [ih]
    exact h2
  | case2 oi fs t hc e oi' fs' hab =>
    rw [shrinkLoop_step_err oi fs t e hc (by rw [hab])]
    have h2 := remove_block_dirents oi fs
    rw [hab] at h2 ⊢
    simpa using h2
  | case3 oi fs t hc oi' fs' hab =>
    rw [shrinkLoop_step_crash oi fs t hc (by rw [hab])]
    have h2 := remove_block_dirents oi fs
    rw [hab] at h2 ⊢
    simpa using h2
  | case4 oi fs t hc =>
    rw [shrinkLoop_stop oi fs t hc]

theorem ospfs_size2nblocks_zero : ospfs_size2nblocks 0 = 0 := by
  norm_num [ospfs_size2nblocks, U32, OSPFS_BLKSIZE]

theorem growLoop_zero (oi : Inode) (fs : FS) : growLoop oi fs 0 = (.done, oi, fs) :=
  growLoop_stop _ _ _ (by rw [ospfs_size2nblocks_zero]; omega)

theorem change_size_nlink (oi : Inode) (fs : FS) (new_size : Nat) :
    (change_size oi fs new_size).2.1.nlink = oi.nlink := by
  unfold change_size
  rcases hg : growLoop oi fs new_size with ⟨flag, oi1, fs1⟩
  have h1 : oi1.nlink = oi.nlink := by
    have := growLoop_nlink oi fs new_size
    rw [hg] at this
    exact this
  cases flag
  · rcases hs : shrinkLoop oi1 fs1 new_size with ⟨flag2, oi2, fs2⟩
    have h2 : oi2.nlink = oi1.nlink := by
      have := shrinkLoop_nlink oi1 fs1 new_size
      rw [hs] at this
      exact this
    cases flag2 <;> simp [hs, h1, h2]
  · rcases hs : shrinkLoop oi1 fs1 oi.size with ⟨flag2, oi2, fs2⟩
    have h2 : oi2.nlink = oi1.nlink := by
      have := shrinkLoop_nlink oi1 fs1 oi.size
      rw [hs] at this
      exact this
    cases flag2 <;> simp [hs, h1, h2]
  · simpa using h1
  · simpa using h1

theorem change_size_zero_dirents (oi : Inode) (fs : FS) :
    (change_size oi fs 0).2.2.dirents = fs.dirents := by
  unfold change_size
  rw [growLoop_zero]
  rcases hs : shrinkLoop oi fs 0 with ⟨flag2, oi2, fs2⟩
  have h2 : fs2.dirents = fs.dirents := by
    have := shrinkLoop_dirents oi fs 0
    rw [hs] at this
    exact this
  cases flag2 <;> simp [hs, h2]

/-! Claim theorems.  Concrete fixtures shared by several claims follow;
each is a small well-formed image state. -/

/-- Claim-worded restatement of the block index, for comparison with
`ospfs_inode_blockno`: sentinel 0 past the size or for symlinks; else
with `b = off / BLKSIZE`: `direct[b]` for `b < ND`; slot `b - ND` of
the block pointed to by `indirect` for `ND ≤ b < ND + NI`; else slot
`b' % NI` of the indirect block found at slot `b' / NI` of the block
pointed to by `indirect2`, with `b' = b - (ND + NI)`. -/
def inode_blockno_spec (oi : Inode) (st : Nat → Nat → Nat) (off : Nat) : Nat :=
  if oi.size ≤ off ∨ oi.ftype = OSPFS_FTYPE_SYMLINK then 0
  else
    let b := off / OSPFS_BLKSIZE
    if b < OSPFS_NDIRECT then oi.direct.getD b 0
    else if b < OSPFS_NDIRECT + OSPFS_NINDIRECT then st oi.indirect (b - OSPFS_NDIRECT)
    else
      st (st oi.indirect2 ((b - (OSPFS_NDIRECT + OSPFS_NINDIRECT)) / OSPFS_NINDIRECT))
        ((b - (OSPFS_NDIRECT + OSPFS_NINDIRECT)) % OSPFS_NINDIRECT)

/-- C7: for every inode and byte offset, `ospfs_inode_blockno` returns
the sentinel 0 when the offset is at or past `oi_size` or the inode is a
symlink, and otherwise resolves file block `b = off / BLKSIZE` through
the direct array (`b < ND`), slot `b - ND` of the indirect block
(`ND ≤ b < ND + NI`), or slot `b' mod NI` of the indirect block at slot
`b' div NI` under `indirect2` (`b' = b - (ND + NI)`), exactly as the
claim states. -/
theorem c7_inode_blockno_matches_spec (oi : Inode) (st : Nat → Nat → Nat) (off : Nat) :
    ospfs_inode_blockno oi st off = inode_blockno_spec oi st off := by
  simp only [ospfs_inode_blockno, inode_blockno_spec]
  by_cases h0 : oi.size ≤ off ∨ oi.ftype = OSPFS_FTYPE_SYMLINK
  · simp [h0]
  · simp only [h0, if_false]
    split_ifs <;> first | rfl | omega

/-- C10: when `*f_pos + count` arithmetically overflows the
file-position type — `*f_pos` is a 64-bit signed `loff_t`, so a
nonnegative position plus a 32-bit count overflows it exactly when the
sum reaches 2^63 — `ospfs_read`'s first guard sees the wrapped sum as
negative, compares it below `*f_pos`, and fails with `-EIO` before
clamping the count or copying anything. -/
theorem c10_read_overflow_eio (oi : Inode) (st : Nat → Nat → Nat) (count fpos : Nat)
    (hp : fpos < U64 / 2) (hc : count < U32) (hov : U64 / 2 ≤ fpos + count) :
    ospfs_read oi st count fpos = .fail .ioError := by
  have hs : fpos + count < U64 := by simp only [U64, U32] at *; omega
  have e1 : toInt64 (fpos + count) = ((fpos + count : Nat) : Int) - (U64 : Int) := by
    unfold toInt64
    rw [Nat.mod_eq_of_lt hs, if_neg (by omega)]
  have e2 : toInt64 fpos = (fpos : Int) := by
    unfold toInt64
    rw [Nat.mod_eq_of_lt (by simp only [U64] at *; omega), if_pos hp]
  have h1 : toInt64 (fpos + count) < toInt64 fpos := by
    rw [e1, e2]
    have hbound : ((fpos + count : Nat) : Int) < (U64 : Int) := by exact_mod_cast hs
    omega
  unfold ospfs_read
  rw [if_pos h1]

/-- Witness for C10 at the concrete position `2^63 - 5` with count 10. -/
theorem c10_read_overflow_eio_witness :
    (U64 / 2 - 5 < U64 / 2 ∧ (10 : Nat) < U32 ∧ U64 / 2 ≤ (U64 / 2 - 5) + 10) ∧
    ospfs_read (default : Inode) (fun _ _ => 0) 10 (U64 / 2 - 5) = .fail .ioError :=
  ⟨⟨by norm_num [U64], by norm_num [U32], by norm_num [U64]⟩,
   c10_read_overflow_eio (default : Inode) (fun _ _ => 0) 10 (U64 / 2 - 5)
     (by norm_num [U64]) (by norm_num [U32]) (by norm_num [U64])⟩

/-- Image state with 32 blocks but only 16 inodes and exactly one free
data block, number 25. -/
def sixteenInodeFs : FS :=
  { nblocks := 32, ninodes := 16, firstinob := 3,
    freemap := List.replicate 25 false ++ [true] ++ List.replicate 6 false,
    store := fun _ _ => 0, bytes := fun _ _ => 0,
    dirents := fun _ _ => { ino := 0, name := [] },
    inodes := fun _ => default }

/-- C4 (code bug): `allocate_block` hands out the free data block 25,
but `free_block` of that very block refuses to set its bit back (its
guard compares the block number against `os_ninodes = 16` instead of
`os_nblocks`), so allocate-then-free does not return the bitmap
bit-for-bit to its prior state. -/
theorem c4_allocate_free_no_roundtrip :
    (allocate_block sixteenInodeFs).1 = 25 ∧
    sixteenInodeFs.freemap.getD 25 false = true ∧
    (free_block (allocate_block sixteenInodeFs).2 (allocate_block sixteenInodeFs).1).freemap.getD
      25 false = false ∧
    (free_block (allocate_block sixteenInodeFs).2 (allocate_block sixteenInodeFs).1).freemap ≠
      sixteenInodeFs.freemap := by
  decide

/-- Image state with 32 blocks and exactly one free data block,
number 30. -/
def oneFreeFs : FS :=
  { nblocks := 32, ninodes := 16, firstinob := 3,
    freemap := List.replicate 30 false ++ [true, false],
    store := fun _ _ => 0, bytes := fun _ _ => 0,
    dirents := fun _ _ => { ino := 0, name := [] },
    inodes := fun _ => default }

/-- A regular file of exactly `ND = 10` blocks, all direct slots in
use, no indirect blocks. -/
def tenDirectFile : Inode :=
  { size := 10 * OSPFS_BLKSIZE, ftype := OSPFS_FTYPE_REG, nlink := 1, mode := 420,
    direct := [3, 4, 5, 6, 7, 8, 9, 10, 11, 12], indirect := 0, indirect2 := 0 }

/-- C2 (code bug): growing `tenDirectFile` (which needs a fresh
indirect block plus a data block) on a disk with one free block makes
`add_block` allocate block 30 as the indirect block, store it straight
into `oi->oi_indirect`, and then fail the data-block allocation; it
returns `-ENOSPC` with the inode mutated (`oi_indirect = 30`) and
block 30 still allocated, not returned to the bitmap — the rollback its
own header comment demands. -/
theorem c2_add_block_error_mutates_inode_and_leaks :
    (add_block tenDirectFile oneFreeFs).1 = Outcome.err Err.noSpace ∧
    (add_block tenDirectFile oneFreeFs).2.1.indirect = 30 ∧
    (add_block tenDirectFile oneFreeFs).2.1 ≠ tenDirectFile ∧
    oneFreeFs.freemap.getD 30 false = true ∧
    (add_block tenDirectFile oneFreeFs).2.2.freemap.getD 30 false = false := by
  decide

/-- C1 (code bug): `change_size` to 11 blocks on the same state reports
`-ENOSPC` and does restore `oi_size`, but the free-block bitmap is not
bit-for-bit identical to the pre-call state: bit 30 stays cleared (the
indirect block `add_block` leaked). -/
theorem c1_change_size_nospace_leaves_dirty_bitmap :
    (change_size tenDirectFile oneFreeFs (11 * OSPFS_BLKSIZE)).1 = Outcome.err Err.noSpace ∧
    (change_size tenDirectFile oneFreeFs (11 * OSPFS_BLKSIZE)).2.1.size = tenDirectFile.size ∧
    (change_size tenDirectFile oneFreeFs (11 * OSPFS_BLKSIZE)).2.2.freemap ≠ oneFreeFs.freemap ∧
    oneFreeFs.freemap.getD 30 false = true ∧
    (change_size tenDirectFile oneFreeFs (11 * OSPFS_BLKSIZE)).2.2.freemap.getD 30 false = false := by
  have hg : growLoop tenDirectFile oneFreeFs (11 * OSPFS_BLKSIZE)
      = (.nospace, (add_block tenDirectFile oneFreeFs).2) := by
    rw [growLoop_step_err _ _ _ Err.noSpace (by decide) (by decide)]
    simp
  have hs : shrinkLoop (add_block tenDirectFile oneFreeFs).2.1
      (add_block tenDirectFile oneFreeFs).2.2 tenDirectFile.size
      = (.done, (add_block tenDirectFile oneFreeFs).2) := shrinkLoop_stop _ _ _ (by decide)
  simp only [change_size, hg, hs]
  refine ⟨trivial, trivial, ?_, by decide, by decide⟩
  decide

/-- A regular file of 11 blocks whose `oi_indirect` is 0 — the
invariant breach `remove_block` is supposed to answer with `-EIO`. -/
def elevenBlockNoIndirect : Inode :=
  { size := 11 * OSPFS_BLKSIZE, ftype := OSPFS_FTYPE_REG, nlink := 1, mode := 420,
    direct := [3, 4, 5, 6, 7, 8, 9, 10, 11, 12], indirect := 0, indirect2 := 0 }

/-- C3 (code bug): with the last file block in the indirect range but
`oi_indirect = 0`, `remove_block` does not return `-EIO` — the
`indir_data == NULL` guard is dead code because `ospfs_block` never
returns NULL — it returns OK and operates on block 0 as if it were the
indirect block. -/
theorem c3_remove_block_missing_indirect_not_eio :
    elevenBlockNoIndirect.indirect = 0 ∧
    (remove_block elevenBlockNoIndirect oneFreeFs).1 = Outcome.ok ∧
    (remove_block elevenBlockNoIndirect oneFreeFs).1 ≠ Outcome.err Err.ioError ∧
    (remove_block elevenBlockNoIndirect oneFreeFs).2.1.size = 10 * OSPFS_BLKSIZE := by
  decide

/-- Helper: when the effective write extent reaches at least the file
size and `change_size` to the (wrapped) end fails, `ospfs_write`
returns that error verbatim with `change_size`'s final state. -/
theorem write_returns_change_size_error (oi : Inode) (fs : FS) (buf : Nat → Nat)
    (count fpos0 : Nat) (append : Bool) (e : Err) (oi' : Inode) (fs' : FS)
    (hsz : oi.size ≤ ((if append then oi.size else fpos0) + count) % U32)
    (hcs : change_size oi fs (((if append then oi.size else fpos0) + count) % U32)
      = (.err e, oi', fs')) :
    ospfs_write oi fs buf count fpos0 append = (.fail e, oi', fs') := by
  simp only [ospfs_write]
  rw [if_pos hsz, hcs]

/-- C6 amended: `ospfs_write` performs no up-front overflow check on
`*f_pos + count` (the source comments it out); the wrapped 32-bit sum
becomes the target size, and when the implied `change_size` growth
fails, `write` reports that failure — `NO_SPACE` on a full disk — not
`IO`. -/
theorem c6_write_overflow_reports_change_size_error (oi : Inode) (fs : FS)
    (buf : Nat → Nat) (count fpos0 : Nat) (append : Bool) (e : Err) (oi' : Inode) (fs' : FS)
    (hov : U32 ≤ (if append then oi.size else fpos0) + count)
    (hsz : oi.size ≤ ((if append then oi.size else fpos0) + count) % U32)
    (hcs : change_size oi fs (((if append then oi.size else fpos0) + count) % U32)
      = (.err e, oi', fs')) :
    ospfs_write oi fs buf count fpos0 append = (.fail e, oi', fs') :=
  write_returns_change_size_error oi fs buf count fpos0 append e oi' fs' hsz hcs

/-- Image state with all 8 blocks allocated (no free block at all). -/
def fullFs : FS :=
  { nblocks := 8, ninodes := 4, firstinob := 3,
    freemap := List.replicate 8 false,
    store := fun _ _ => 0, bytes := fun _ _ => 0,
    dirents := fun _ _ => { ino := 0, name := [] },
    inodes := fun _ => default }

/-- An empty regular file. -/
def emptyFile : Inode :=
  { size := 0, ftype := OSPFS_FTYPE_REG, nlink := 1, mode := 420,
    direct := List.replicate 10 0, indirect := 0, indirect2 := 0 }

/-- Evaluation of `change_size` on the C6 state: growing the empty file
to the wrapped size 5 on a full disk fails with `-ENOSPC` and rolls
back to the initial state. -/
theorem c6_change_size_eval :
    change_size emptyFile fullFs (((U32 - 5) + 10) % U32)
      = (Outcome.err Err.noSpace, emptyFile, fullFs) := by
  have hg : growLoop emptyFile fullFs (((U32 - 5) + 10) % U32)
      = (.nospace, (add_block emptyFile fullFs).2) := by
    rw [growLoop_step_err _ _ _ Err.noSpace (by decide) (by decide)]
    simp
  have hs : shrinkLoop (add_block emptyFile fullFs).2.1 (add_block emptyFile fullFs).2.2
      emptyFile.size = (.done, (add_block emptyFile fullFs).2) :=
    shrinkLoop_stop _ _ _ (by decide)
  simp only [change_size, hg, hs]
  rfl

/-- C6 counterexample: a write at position `2^32 - 5` with count 10
overflows the file-position type, yet on a full disk `ospfs_write`
reports `NO_SPACE` — not the `IO` the claim asserts. -/
theorem c6_write_overflow_not_eio :
    U32 ≤ (U32 - 5) + 10 ∧
    ospfs_write emptyFile fullFs (fun _ => 65) 10 (U32 - 5) false
      = (.fail .noSpace, emptyFile, fullFs) ∧
    ospfs_write emptyFile fullFs (fun _ => 65) 10 (U32 - 5) false
      ≠ (.fail .ioError, emptyFile, fullFs) := by
  have h2 := write_returns_change_size_error emptyFile fullFs (fun _ => 65) 10 (U32 - 5)
    false Err.noSpace emptyFile fullFs (by decide) c6_change_size_eval
  refine ⟨by decide, h2, ?_⟩
  rw [h2]
  simp

/-- Witness for the amended C6 at the concrete overflowing write. -/
theorem c6_write_overflow_witness :
    (U32 ≤ (if (false : Bool) then emptyFile.size else U32 - 5) + 10 ∧
     emptyFile.size ≤ ((if (false : Bool) then emptyFile.size else U32 - 5) + 10) % U32 ∧
     change_size emptyFile fullFs
       (((if (false : Bool) then emptyFile.size else U32 - 5) + 10) % U32)
       = (.err .noSpace, emptyFile, fullFs)) ∧
    ospfs_write emptyFile fullFs (fun _ => 65) 10 (U32 - 5) false
      = (.fail .noSpace, emptyFile, fullFs) :=
  ⟨⟨by decide, by decide, c6_change_size_eval⟩,
   c6_write_overflow_reports_change_size_error emptyFile fullFs (fun _ => 65) 10 (U32 - 5)
     false Err.noSpace emptyFile fullFs (by decide) (by decide) c6_change_size_eval⟩

/-- One-step evaluation of the `ospfs_unlink` entry scan at a hit. -/
theorem unlinkScan_found (dirOi : Inode) (fs : FS) (name : List Nat) (off : Nat)
    (h : off < dirOi.size)
    (hod : 0 < (getDirent dirOi fs off).ino ∧ (getDirent dirOi fs off).name = name) :
    unlinkScan dirOi fs name off = some off := by
  rw [unlinkScan, dif_pos h]
  exact if_pos hod

/-- C5 amended: when the named entry exists, `ospfs_unlink` clears the
entry's `od_ino` and decrements the target inode's `oi_nlink` — but it
also decrements the parent directory's own `oi_nlink` (the source's
`dir_oi->oi_nlink--`), contrary to the claim. -/
theorem c5_unlink_decrements_parent_nlink (dirOi targetOi : Inode) (fs : FS)
    (name : List Nat) (off : Nat)
    (hfound : unlinkScan dirOi fs name 0 = some off) :
    ((ospfs_unlink dirOi targetOi fs name).map fun r => r.1.nlink)
      = .ok (dec32 dirOi.nlink) ∧
    ((ospfs_unlink dirOi targetOi fs name).map fun r => r.2.1.nlink)
      = .ok (dec32 targetOi.nlink) ∧
    ((ospfs_unlink dirOi targetOi fs name).map fun r =>
        (r.2.2.dirents (ospfs_inode_blockno dirOi fs.store off)
          ((off % OSPFS_BLKSIZE) / OSPFS_DIRENTRY_SIZE)).ino)
      = .ok 0 := by
  simp only [ospfs_unlink, hfound]
  split
  · refine ⟨rfl, ?_, ?_⟩
    · have h1 := change_size_nlink { targetOi with nlink := dec32 targetOi.nlink }
        (clearDirentIno dirOi fs off) 0
      simp only [Except.map]
      rw [h1]
    · have h2 := change_size_zero_dirents { targetOi with nlink := dec32 targetOi.nlink }
        (clearDirentIno dirOi fs off)
      simp only [Except.map]
      rw [h2]
      simp [clearDirentIno]
  · exact ⟨rfl, rfl, by simp [Except.map, clearDirentIno]⟩

/-- Image state whose block 5 holds one directory entry, name `"x"`
(byte 120), pointing at inode 2. -/
def unlinkFs : FS :=
  { nblocks := 8, ninodes := 4, firstinob := 3,
    freemap := List.replicate 8 false,
    store := fun _ _ => 0, bytes := fun _ _ => 0,
    dirents := fun b k => if b = 5 ∧ k = 0 then { ino := 2, name := [120] }
      else { ino := 0, name := [] },
    inodes := fun _ => default }

/-- A directory of one entry block (block 5), link count 5. -/
def unlinkDir : Inode :=
  { size := 128, ftype := OSPFS_FTYPE_DIR, nlink := 5, mode := 493,
    direct := [5, 0, 0, 0, 0, 0, 0, 0, 0, 0], indirect := 0, indirect2 := 0 }

/-- A regular file with two hard links. -/
def unlinkTarget : Inode :=
  { size := 0, ftype := OSPFS_FTYPE_REG, nlink := 2, mode := 420,
    direct := List.replicate 10 0, indirect := 0, indirect2 := 0 }

/-- C5 counterexample: unlinking `"x"` from a directory with `nlink = 5`
leaves the parent with `nlink = 4`, not 5 — the claim's "parent nlink
unchanged" is false on the code. -/
theorem c5_unlink_parent_nlink_changed :
    unlinkDir.nlink = 5 ∧
    ((ospfs_unlink unlinkDir unlinkTarget unlinkFs [120]).map fun r => r.1.nlink) = .ok 4 ∧
    ((ospfs_unlink unlinkDir unlinkTarget unlinkFs [120]).map fun r => r.1.nlink) ≠ .ok 5 := by
  have hfound : unlinkScan unlinkDir unlinkFs [120] 0 = some 0 :=
    unlinkScan_found _ _ _ _ (by decide) (by decide)
  simp only [ospfs_unlink, hfound]
  rw [if_neg (by norm_num [dec32, U32, unlinkTarget])]
  refine ⟨rfl, ?_, ?_⟩ <;> simp [Except.map, unlinkDir, dec32, U32]

/-- Witness for the amended C5 at the concrete directory state. -/
theorem c5_unlink_decrements_parent_nlink_witness :
    unlinkScan unlinkDir unlinkFs [120] 0 = some 0 ∧
    (((ospfs_unlink unlinkDir unlinkTarget unlinkFs [120]).map fun r => r.1.nlink)
        = .ok (dec32 unlinkDir.nlink) ∧
     ((ospfs_unlink unlinkDir unlinkTarget unlinkFs [120]).map fun r => r.2.1.nlink)
        = .ok (dec32 unlinkTarget.nlink) ∧
     ((ospfs_unlink unlinkDir unlinkTarget unlinkFs [120]).map fun r =>
         (r.2.2.dirents (ospfs_inode_blockno unlinkDir unlinkFs.store 0)
           ((0 % OSPFS_BLKSIZE) / OSPFS_DIRENTRY_SIZE)).ino)
        = .ok 0) := by
  have hfound : unlinkScan unlinkDir unlinkFs [120] 0 = some 0 :=
    unlinkScan_found _ _ _ _ (by decide) (by decide)
  exact ⟨hfound, c5_unlink_decrements_parent_nlink unlinkDir unlinkTarget unlinkFs [120] 0 hfound⟩

/-! List facts for the symlink codec: locating the first `'?'` / `':'`
in a decomposed target, and reading stored C strings back. -/

theorem findIdx?_append_all_false {α : Type} (p : α → Bool) (l1 l2 : List α)
    (h : ∀ x ∈ l1, p x = false) :
    (l1 ++ l2).findIdx? p = (l2.findIdx? p).map (fun i => i + l1.length) := by
  induction l1 with
  | nil => simp
  | cons a t ih =>
    have ha : p a = false := h a (List.mem_cons_self a t)
    have ht : ∀ x ∈ t, p x = false := fun x hx => h x (List.mem_cons_of_mem a hx)
    rw [List.cons_append, List.findIdx?_cons, ha]
    simp only [Bool.false_eq_true, if_false]
    rw [List.findIdx?_succ, ih ht]
    cases h2 : l2.findIdx? p with
    | none => simp
    | some i =>
      simp only [Option.map, List.length_cons]
      rw [Nat.add_assoc]

theorem takeWhile_append_stop {α : Type} (p : α → Bool) (l1 : List α) (x : α) (l2 : List α)
    (h1 : ∀ b ∈ l1, p b = true) (hx : p x = false) :
    (l1 ++ x :: l2).takeWhile p = l1 := by
  induction l1 with
  | nil => simp [List.takeWhile_cons, hx]
  | cons a t ih =>
    have ha : p a = true := h1 a (List.mem_cons_self a t)
    have ht : ∀ b ∈ t, p b = true := fun b hb => h1 b (List.mem_cons_of_mem a hb)
    rw [List.cons_append, List.takeWhile_cons, ha]
    simp only [if_true]
    rw [ih ht]

theorem cstr_append_zero (l1 l2 : List Nat) (h : ∀ b ∈ l1, b ≠ 0) :
    cstr (l1 ++ 0 :: l2) = l1 := by
  unfold cstr
  exact takeWhile_append_stop _ l1 0 l2
    (fun b hb => decide_eq_true (h b hb)) (by simp)

/-- C9: for every conditional target `<pre> '?' <root> ':' <other>`
(first `'?'` before first `':'`: no `'?'` or `':'` in the prefix, no
`':'` in the root path, all parts NUL-free) that `ospfs_symlink`
accepts, the stored bytes are `"?" <root> '\0' ":" <other> '\0'` with
`oi_size = |root| + |other| + 3`, and `ospfs_follow_link` resolves them
to the root path for uid 0 and to the other path for every other uid. -/
theorem c9_conditional_symlink_roundtrip (pre root other : List Nat)
    (hpre0 : ∀ b ∈ pre, b ≠ 0) (hroot0 : ∀ b ∈ root, b ≠ 0) (hother0 : ∀ b ∈ other, b ≠ 0)
    (hpre63 : ∀ b ∈ pre, b ≠ 63) (hpre58 : ∀ b ∈ pre, b ≠ 58) (hroot58 : ∀ b ∈ root, b ≠ 58)
    (hlen : root.length + other.length + 3 ≤ OSPFS_MAXNAMELEN) :
    ospfs_symlink_encode (pre ++ 63 :: (root ++ 58 :: other))
      = .ok (root.length + other.length + 3, (63 :: root) ++ [0] ++ (58 :: other) ++ [0]) ∧
    ospfs_follow_link (root.length + other.length + 3)
      ((63 :: root) ++ [0] ++ (58 :: other) ++ [0]) 0 = .ok root ∧
    ∀ uid : Nat, uid ≠ 0 →
      ospfs_follow_link (root.length + other.length + 3)
        ((63 :: root) ++ [0] ++ (58 :: other) ++ [0]) uid = .ok other := by
  have hq : (pre ++ 63 :: (root ++ 58 :: other)).findIdx? (fun b => b = 63)
      = some pre.length := by
    rw [findIdx?_append_all_false _ pre _
      (fun x hx => decide_eq_false (by simpa using hpre63 x hx))]
    have h0 : List.findIdx? (fun b => decide (b = 63)) (63 :: (root ++ 58 :: other))
        = some 0 := by
      rw [List.findIdx?_cons]
      norm_num
    rw [h0]
    simp
  have hgroup : pre ++ 63 :: (root ++ 58 :: other)
      = (pre ++ 63 :: root) ++ 58 :: other := by
    simp
  have hc : (pre ++ 63 :: (root ++ 58 :: other)).findIdx? (fun b => b = 58)
      = some (pre.length + root.length + 1) := by
    rw [hgroup]
    rw [findIdx?_append_all_false _ (pre ++ 63 :: root) _ ?hall]
    · have h0 : List.findIdx? (fun b => decide (b = 58)) (58 :: other) = some 0 := by
        rw [List.findIdx?_cons]
        norm_num
      rw [h0]
      simp
      omega
    case hall =>
      intro x hx
      rcases List.mem_append.mp hx with hx1 | hx2
      · exact decide_eq_false (by simpa using hpre58 x hx1)
      · rcases List.mem_cons.mp hx2 with rfl | hx3
        · exact decide_eq_false (by norm_num)
        · exact decide_eq_false (by simpa using hroot58 x hx3)
  have hlen1 : (pre ++ 63 :: (root ++ 58 :: other)).length
      = pre.length + root.length + other.length + 2 := by
    simp
    omega
  have henc : ospfs_symlink_encode (pre ++ 63 :: (root ++ 58 :: other))
      = .ok (root.length + other.length + 3, (63 :: root) ++ [0] ++ (58 :: other) ++ [0]) := by
    simp only [ospfs_symlink_encode, hq, hc]
    rw [if_pos (by omega)]
    rw [if_neg (by rw [hlen1]; omega)]
    have hdropq : (pre ++ 63 :: (root ++ 58 :: other)).drop pre.length
        = 63 :: (root ++ 58 :: other) := List.drop_left pre _
    have hdropc : (pre ++ 63 :: (root ++ 58 :: other)).drop (pre.length + root.length + 1)
        = 58 :: other := by
      rw [hgroup]
      have h1 : pre.length + root.length + 1 = (pre ++ 63 :: root).length := by
        simp
        omega
      rw [h1]
      exact List.drop_left _ _
    rw [hdropq, hdropc]
    have htake : (63 :: (root ++ 58 :: other)).take (pre.length + root.length + 1 - pre.length + 1 - 1)
        = 63 :: root := by
      have h1 : pre.length + root.length + 1 - pre.length + 1 - 1 = (63 :: root).length := by
        simp
        omega
      rw [h1]
      have h2 : 63 :: (root ++ 58 :: other) = (63 :: root) ++ 58 :: other := by simp
      rw [h2]
      exact List.take_left _ _
    rw [htake]
    rw [hlen1]
    have h3 : pre.length + root.length + other.length + 2 - pre.length + 1
        = root.length + other.length + 3 := by omega
    rw [h3]
  have hL0 : ((63 :: root) ++ [0] ++ (58 :: other) ++ [0]).getD 0 0 = 63 := rfl
  have hcstrL : cstr ((63 :: root) ++ [0] ++ (58 :: other) ++ [0]) = 63 :: root := by
    have h1 : (63 :: root) ++ [0] ++ (58 :: other) ++ [0]
        = (63 :: root) ++ 0 :: ((58 :: other) ++ [0]) := by simp
    rw [h1]
    exact cstr_append_zero _ _ (by
      intro b hb
      rcases List.mem_cons.mp hb with rfl | hb2
      · norm_num
      · exact hroot0 b hb2)
  refine ⟨henc, ?_, ?_⟩
  · unfold ospfs_follow_link
    rw [hL0]
    rw [if_pos rfl, if_pos rfl]
    have h1 : ((63 :: root) ++ [0] ++ (58 :: other) ++ [0]).drop 1
        = root ++ 0 :: ((58 :: other) ++ [0]) := by simp
    rw [h1, cstr_append_zero _ _ hroot0]
  · intro uid huid
    unfold ospfs_follow_link
    rw [hL0]
    rw [if_pos rfl, if_neg huid]
    rw [hcstrL]
    have hoff : ((63 :: root) ++ [0] ++ (58 :: other) ++ [0]).getD ((63 :: root).length + 1) 0
        = 58 := by
      have h1 : (63 :: root) ++ [0] ++ (58 :: other) ++ [0]
          = ((63 :: root) ++ [0]) ++ ((58 :: other) ++ [0]) := by simp
      rw [h1]
      rw [List.getD_append_right _ _ _ _ (by simp)]
      simp
    have hcond : ¬ (((63 :: root) ++ [0] ++ (58 :: other) ++ [0]).getD
        ((63 :: root).length + 1) 0 ≠ 58 ∨
        root.length + other.length + 3 ≤ (63 :: root).length) := by
      rw [hoff]
      simp
      omega
    rw [if_neg hcond]
    have hdrop : ((63 :: root) ++ [0] ++ (58 :: other) ++ [0]).drop ((63 :: root).length + 2)
        = other ++ [0] := by
      have h1 : (63 :: root) ++ [0] ++ (58 :: other) ++ [0]
          = ((63 :: root) ++ [0, 58]) ++ (other ++ [0]) := by simp
      have h2 : (63 :: root).length + 2 = ((63 :: root) ++ [0, 58]).length := by simp
      rw [h1, h2]
      exact List.drop_left _ _
    rw [hdrop]
    have h3 : other ++ [0] = other ++ 0 :: ([] : List Nat) := rfl
    rw [h3, cstr_append_zero _ _ hother0]

/-- Witness for C9: storing `"root?/r:/o"` yields the encoded bytes
`"?/r\0:/o\0"` of size 7, which resolve to `"/r"` for uid 0 and `"/o"`
for uid 1000. -/
theorem c9_conditional_symlink_roundtrip_witness :
    ospfs_symlink_encode [114, 111, 111, 116, 63, 47, 114, 58, 47, 111]
      = .ok (7, [63, 47, 114, 0, 58, 47, 111, 0]) ∧
    ospfs_follow_link 7 [63, 47, 114, 0, 58, 47, 111, 0] 0 = .ok [47, 114] ∧
    ospfs_follow_link 7 [63, 47, 114, 0, 58, 47, 111, 0] 1000 = .ok [47, 111] := by
  have h := c9_conditional_symlink_roundtrip [114, 111, 111, 116] [47, 114] [47, 111]
    (by decide) (by decide) (by decide) (by decide) (by decide) (by decide) (by decide)
  exact ⟨h.1, h.2.1, h.2.2 1000 (by decide)⟩

/-! The `readdir` claim: a claim-worded iterator specification and the
proof that `ospfs_dir_readdir` follows it. -/

theorem ospfs_inodeOpt_none_iff (fs : FS) (ino : Nat) :
    ospfs_inodeOpt fs ino = none ↔ fs.ninodes ≤ ino := by
  unfold ospfs_inodeOpt
  split <;> simp [*]

theorem ospfs_inodeOpt_some (fs : FS) (ino : Nat) (oi : Inode)
    (h : ospfs_inodeOpt fs ino = some oi) :
    ¬ fs.ninodes ≤ ino ∧ oi = fs.inodes ino := by
  unfold ospfs_inodeOpt at h
  split at h
  · simp at h
  · next hn => exact ⟨hn, (Option.some.inj h).symm⟩

/-- The claim's description of the entry loop (with the amendments):
the cursor is a 32-bit quantity, so cursor `k` (taken mod 2^32)
addresses the byte offset `(k - 2) * DIRENTRY_SIZE mod 2^32` — at
cursors of 2^25 + 2 and beyond the offset wraps and earlier entries are
revisited; the iteration stops with result 1 exactly when that wrapped
offset reaches `dir.size`, and exits with 0 if incrementing wraps the
cursor below 2; a blank entry (`ino = 0`; also one whose inode number
is outside the inode table) is skipped by advancing the cursor without
emission; an entry whose inode carries an unrecognized `ftype` stops
the iteration with `-EIO`; any other entry is emitted, and iteration
also stops when the consumer refuses it. -/
def readdirSpecLoop {σ : Type} (fs : FS) (dirOi : Inode)
    (filldir : σ → Emitted → σ × Bool) (cursor : Nat) (s : σ) : Int × Nat × σ :=
  if h2 : cursor % U32 < 2 then (0, cursor % U32, s)
  else if h : dirOi.size ≤ ((cursor % U32 - 2) * OSPFS_DIRENTRY_SIZE) % U32 then
    (1, cursor % U32, s)
  else
    let od := getDirent dirOi fs (((cursor % U32 - 2) * OSPFS_DIRENTRY_SIZE) % U32)
    if od.ino = 0 ∨ fs.ninodes ≤ od.ino then
      readdirSpecLoop fs dirOi filldir (cursor % U32 + 1) s
    else
      match dtType (fs.inodes od.ino).ftype with
      | none => (-5, cursor % U32, s)
      | some ft =>
        let r := filldir s { name := od.name, pos := cursor % U32, ino := od.ino, dtype := ft }
        if r.2 then readdirSpecLoop fs dirOi filldir (cursor % U32 + 1) r.1
        else (0, (cursor % U32 + 1) % U32, r.1)
termination_by readdirMeasure cursor
decreasing_by all_goals (simp only [readdirMeasure, U32] at h2 ⊢; split_ifs <;> omega)

/-- The claim's description of cursor 1: emit `".."` with the parent's
inode, then iterate the entries from cursor 2 (unless the consumer
refuses). -/
def readdirSpecDots {σ : Type} (fs : FS) (dirIno parentIno : Nat)
    (filldir : σ → Emitted → σ × Bool) (s : σ) : Int × Nat × σ :=
  let r := filldir s { name := [46, 46], pos := 1, ino := parentIno, dtype := DT_DIR }
  if r.2 then readdirSpecLoop fs (fs.inodes dirIno) filldir 2 r.1
  else (0, 1, r.1)

/-- The claim's description of the iterator: the starting cursor is
taken mod 2^32 (the 32-bit cursor); cursor 0 emits `"."` with this
directory's inode, cursor 1 emits `".."` with the parent's, and every
cursor `k ≥ 2` runs the entry iteration `readdirSpecLoop`. -/
def readdirSpec {σ : Type} (fs : FS) (dirIno parentIno : Nat) (fpos0 : Nat)
    (filldir : σ → Emitted → σ × Bool) (s0 : σ) : Int × Nat × σ :=
  if fpos0 % U32 = 0 then
    let r := filldir s0 { name := [46], pos := 0, ino := dirIno, dtype := DT_DIR }
    if r.2 then readdirSpecDots fs dirIno parentIno filldir r.1
    else (0, 0, r.1)
  else if fpos0 % U32 = 1 then readdirSpecDots fs dirIno parentIno filldir s0
  else readdirSpecLoop fs (fs.inodes dirIno) filldir (fpos0 % U32) s0

theorem readdirLoop_eq_spec {σ : Type} (fs : FS) (dirOi : Inode)
    (filldir : σ → Emitted → σ × Bool) (fpos : Nat) (s : σ) :
    readdirLoop fs dirOi filldir fpos s = readdirSpecLoop fs dirOi filldir fpos s := by
  induction fpos, s using readdirLoop.induct fs dirOi filldir with
  | case1 fpos s h2 =>
    rw [readdirLoop, readdirSpecLoop, dif_pos h2, dif_pos h2]
  | case2 fpos s h2 h =>
    rw [readdirLoop, readdirSpecLoop, dif_neg h2, dif_neg h2, dif_pos h, dif_pos h]
  | case3 fpos s h2 h od hnone ih =>
    have hnone' : ospfs_inodeOpt fs
        (getDirent dirOi fs (((fpos % U32 - 2) * OSPFS_DIRENTRY_SIZE) % U32)).ino
        = none := hnone
    rw [readdirLoop, readdirSpecLoop, dif_neg h2, dif_neg h2, dif_neg h, dif_neg h]
    simp only [hnone']
    rw [if_pos (Or.inr ((ospfs_inodeOpt_none_iff _ _).mp hnone'))]
    exact ih
  | case4 fpos s h2 h od entryOi hsome hino ih =>
    have hsome' : ospfs_inodeOpt fs
        (getDirent dirOi fs (((fpos % U32 - 2) * OSPFS_DIRENTRY_SIZE) % U32)).ino
        = some entryOi := hsome
    have hino' : (getDirent dirOi fs (((fpos % U32 - 2) * OSPFS_DIRENTRY_SIZE) % U32)).ino
        = 0 := hino
    rw [readdirLoop, readdirSpecLoop, dif_neg h2, dif_neg h2, dif_neg h, dif_neg h]
    simp only [hsome']
    rw [if_pos hino', if_pos (Or.inl hino')]
    exact ih
  | case5 fpos s h2 h od entryOi hsome hino hdt =>
    have hsome' : ospfs_inodeOpt fs
        (getDirent dirOi fs (((fpos % U32 - 2) * OSPFS_DIRENTRY_SIZE) % U32)).ino
        = some entryOi := hsome
    have hino' : ¬ (getDirent dirOi fs (((fpos % U32 - 2) * OSPFS_DIRENTRY_SIZE) % U32)).ino
        = 0 := hino
    have hdt' : dtType entryOi.ftype = none := hdt
    obtain ⟨hlt, heq⟩ := ospfs_inodeOpt_some _ _ _ hsome'
    rw [readdirLoop, readdirSpecLoop, dif_neg h2, dif_neg h2, dif_neg h, dif_neg h]
    simp only [hsome']
    rw [if_neg hino']
    rw [if_neg (by push_neg; exact ⟨hino', not_le.mp hlt⟩)]
    rw [← heq]
    simp only [hdt']
  | case6 fpos s h2 h od entryOi hsome hino ft hdt r hok ih =>
    have hsome' : ospfs_inodeOpt fs
        (getDirent dirOi fs (((fpos % U32 - 2) * OSPFS_DIRENTRY_SIZE) % U32)).ino
        = some entryOi := hsome
    have hino' : ¬ (getDirent dirOi fs (((fpos % U32 - 2) * OSPFS_DIRENTRY_SIZE) % U32)).ino
        = 0 := hino
    have hdt' : dtType entryOi.ftype = some ft := hdt
    have hok' : (filldir s
        { name := (getDirent dirOi fs (((fpos % U32 - 2) * OSPFS_DIRENTRY_SIZE) % U32)).name,
          pos := fpos % U32,
          ino := (getDirent dirOi fs (((fpos % U32 - 2) * OSPFS_DIRENTRY_SIZE) % U32)).ino,
          dtype := ft }).2 = true := hok
    obtain ⟨hlt, heq⟩ := ospfs_inodeOpt_some _ _ _ hsome'
    rw [readdirLoop, readdirSpecLoop, dif_neg h2, dif_neg h2, dif_neg h, dif_neg h]
    simp only [hsome']
    rw [if_neg hino']
    rw [if_neg (by push_neg; exact ⟨hino', not_le.mp hlt⟩)]
    rw [← heq]
    simp only [hdt', hok', if_true]
    exact ih
  | case7 fpos s h2 h od entryOi hsome hino ft hdt r hstop =>
    have hsome' : ospfs_inodeOpt fs
        (getDirent dirOi fs (((fpos % U32 - 2) * OSPFS_DIRENTRY_SIZE) % U32)).ino
        = some entryOi := hsome
    have hino' : ¬ (getDirent dirOi fs (((fpos % U32 - 2) * OSPFS_DIRENTRY_SIZE) % U32)).ino
        = 0 := hino
    have hdt' : dtType entryOi.ftype = some ft := hdt
    have hstop' : (filldir s
        { name := (getDirent dirOi fs (((fpos % U32 - 2) * OSPFS_DIRENTRY_SIZE) % U32)).name,
          pos := fpos % U32,
          ino := (getDirent dirOi fs (((fpos % U32 - 2) * OSPFS_DIRENTRY_SIZE) % U32)).ino,
          dtype := ft }).2 = false := by
      cases hfb : (filldir s
          { name := (getDirent dirOi fs (((fpos % U32 - 2) * OSPFS_DIRENTRY_SIZE) % U32)).name,
            pos := fpos % U32,
            ino := (getDirent dirOi fs (((fpos % U32 - 2) * OSPFS_DIRENTRY_SIZE) % U32)).ino,
            dtype := ft }).2
      · rfl
      · exact absurd hfb hstop
    obtain ⟨hlt, heq⟩ := ospfs_inodeOpt_some _ _ _ hsome'
    rw [readdirLoop, readdirSpecLoop, dif_neg h2, dif_neg h2, dif_neg h, dif_neg h]
    simp only [hsome']
    rw [if_neg hino']
    rw [if_neg (by push_neg; exact ⟨hino', not_le.mp hlt⟩)]
    rw [← heq]
    simp only [hdt', hstop']
    rfl

/-- C8 amended: `ospfs_dir_readdir` emits `"."` with this directory's
inode at cursor 0 and `".."` with the parent's at cursor 1 (the
starting cursor is the `loff_t` file position truncated to the 32-bit
`f_pos`), and for cursor `k ≥ 2` handles the directory entry at the
32-bit byte offset `(k - 2) * DIRENTRY_SIZE mod 2^32` — so at cursors
of `2^25 + 2` and beyond the offset wraps and earlier entries are
revisited — skipping blank entries (`ino = 0`, likewise entries beyond
the inode table) by advancing without emission; it stops with result 1
when that wrapped offset reaches `dir.size`, stops when the consumer
refuses an entry, exits with 0 if the incremented 32-bit cursor wraps
below 2, and stops with `-EIO` when an entry's inode carries an
`oi_ftype` that is not regular / directory / symlink. -/
theorem c8_readdir_matches_spec {σ : Type} (fs : FS) (dirIno parentIno fpos0 : Nat)
    (filldir : σ → Emitted → σ × Bool) (s0 : σ) :
    ospfs_dir_readdir fs dirIno parentIno fpos0 filldir s0
      = readdirSpec fs dirIno parentIno fpos0 filldir s0 := by
  have hloop := readdirLoop_eq_spec fs (fs.inodes dirIno) filldir
  by_cases h0 : fpos0 % U32 = 0
  · simp only [ospfs_dir_readdir, readdirSpec, readdirSpecDots, h0, if_pos rfl]
    rcases hr : filldir s0 { name := [46], pos := 0, ino := dirIno, dtype := DT_DIR }
      with ⟨s1, ok1⟩
    simp only [hr]
    cases ok1
    · simp
    · simp only [if_true]
      rcases hr2 : filldir s1 { name := [46, 46], pos := 1, ino := parentIno, dtype := DT_DIR }
        with ⟨s2, ok2⟩
      simp only [hr2]
      cases ok2
      · simp
      · simp [hloop 2 s2]
  · by_cases h1 : fpos0 % U32 = 1
    · simp only [ospfs_dir_readdir, readdirSpec, readdirSpecDots, h1]
      norm_num
      rcases hr2 : filldir s0 { name := [46, 46], pos := 1, ino := parentIno, dtype := DT_DIR }
        with ⟨s2, ok2⟩
      simp only [hr2]
      cases ok2
      · simp
      · simp [hloop 2 s2]
    · have h2 : 2 ≤ fpos0 % U32 := by omega
      simp only [ospfs_dir_readdir, readdirSpec, if_neg h0, if_neg h1]
      simp only [h1, and_false, if_false, true_and, if_pos h2]
      exact hloop (fpos0 % U32) s0

/-- Image state for the readdir claim: the root directory (inode 1,
entry block 5) holds one entry `"x"` pointing at inode 2, whose
`oi_ftype` is the unrecognized value 9. -/
def badFtypeFs : FS :=
  { nblocks := 8, ninodes := 4, firstinob := 3,
    freemap := List.replicate 8 false,
    store := fun _ _ => 0, bytes := fun _ _ => 0,
    dirents := fun b k => if b = 5 ∧ k = 0 then { ino := 2, name := [120] }
      else { ino := 0, name := [] },
    inodes := fun i => if i = 1 then unlinkDir
      else if i = 2 then { unlinkTarget with ftype := 9 } else default }

/-- C8 counterexample: starting at cursor 2 with a consumer that never
refuses, `ospfs_dir_readdir` stops with `-EIO` at the entry whose inode
has `ftype = 9`, although the end-of-directory condition does not hold
and the consumer never asked to stop — the claim's "stops exactly when"
is false on the code. -/
theorem c8_readdir_stops_on_unknown_ftype :
    ospfs_dir_readdir badFtypeFs 1 1 2 (fun (s : Unit) (_ : Emitted) => (s, true)) ()
      = (-5, 2, ()) ∧
    ¬ (badFtypeFs.inodes 1).size ≤ ((2 - 2) * OSPFS_DIRENTRY_SIZE) % U32 ∧
    ((-5 : Int) ≠ 1 ∧ (-5 : Int) ≠ 0) := by
  have h1 : ospfs_dir_readdir badFtypeFs 1 1 2 (fun (s : Unit) (_ : Emitted) => (s, true)) ()
      = readdirLoop badFtypeFs (badFtypeFs.inodes 1) (fun s _ => (s, true)) (2 % U32) () := rfl
  refine ⟨?_, by decide, by decide, by decide⟩
  rw [h1, readdirLoop, dif_neg (by decide), dif_neg (by decide)]
  rfl

/-- The 32-bit wrap of the entry offset is real on the embedding: at
cursor `2^25 + 2` the unbounded product `(cursor - 2) * DIRENTRY_SIZE`
is `2^32`, at or past any directory size, yet `ospfs_dir_readdir` does
not stop there — the `uint32_t` offset wraps to 0 and entry 0 is read
again (here hitting the same `ftype = 9` inode, so the call reports
`-EIO` at that huge cursor instead of the end-of-directory result 1). -/
theorem readdir_wrapped_offset_rereads_entry :
    ospfs_dir_readdir badFtypeFs 1 1 (2 ^ 25 + 2)
      (fun (s : Unit) (_ : Emitted) => (s, true)) () = (-5, 2 ^ 25 + 2, ()) ∧
    (badFtypeFs.inodes 1).size ≤ (2 ^ 25 + 2 - 2) * OSPFS_DIRENTRY_SIZE := by
  have h1 : ospfs_dir_readdir badFtypeFs 1 1 (2 ^ 25 + 2)
      (fun (s : Unit) (_ : Emitted) => (s, true)) ()
      = readdirLoop badFtypeFs (badFtypeFs.inodes 1) (fun s _ => (s, true))
        ((2 ^ 25 + 2) % U32) () := rfl
  refine ⟨?_, by decide⟩
  rw [h1, readdirLoop, dif_neg (by decide), dif_neg (by decide)]
  rfl

end OSPFS
